import Mathlib

/-!
Verification of the article-pipeline ingestion core.

Shallow embedding of:
  * `src/utils/url_normalizer.py` (URLNormalizer.normalize_url, generate_url_hash),
    including a faithful model of CPython's `urllib.parse.urlparse` /
    `urlunparse` as used by that module;
  * `src/utils/cache.py` (ArticleCache: _generate_cache_key, check_redis_cache,
    check_mongodb_cache, should_scrape, set_redis_cache);
  * `src/services/scraper.py` (ArticleScraper: scrape_article retry loop,
    _extract_title, _extract_content cascades);
  * `src/consumer/consumer.py` (ArticleConsumer.process_single_article).

Strings are modelled as lists of characters; `hashlib.sha256` is implemented
in full (FIPS 180-4) so that cache keys and URL fingerprints are computable.
-/

namespace ArticlePipeline

/-- Python strings are modelled as lists of characters. -/
abbrev Str := List Char

/-- Coerce a Lean string literal into the model representation. -/
def str (s : String) : Str := s.data

/-- ASCII lower-casing of one character, as `str.lower` acts on ASCII input
(the URLs and class names handled by the pipeline are ASCII). -/
def lowerChar (c : Char) : Char :=
  if 65 ≤ c.toNat ∧ c.toNat ≤ 90 then Char.ofNat (c.toNat + 32) else c

/-- `s.lower()` on ASCII strings. -/
def lower (s : Str) : Str := s.map lowerChar

/-- `s.rstrip('/')`: drop all trailing slashes. -/
def rstripSlash (s : Str) : Str := (s.reverse.dropWhile (fun c => c == '/')).reverse

/- ### SHA-256 (hashlib.sha256), FIPS 180-4, over byte lists -/

/-- 2^32, the word modulus of SHA-256. -/
def M32 : Nat := 4294967296

/-- Right rotation of a 32-bit word. -/
def rotr (n x : Nat) : Nat := ((x >>> n) ||| (x <<< (32 - n))) % M32

def bigSigma0 (x : Nat) : Nat := rotr 2 x ^^^ rotr 13 x ^^^ rotr 22 x
def bigSigma1 (x : Nat) : Nat := rotr 6 x ^^^ rotr 11 x ^^^ rotr 25 x
def smallSigma0 (x : Nat) : Nat := rotr 7 x ^^^ rotr 18 x ^^^ (x >>> 3)
def smallSigma1 (x : Nat) : Nat := rotr 17 x ^^^ rotr 19 x ^^^ (x >>> 10)
def chF (x y z : Nat) : Nat := (x &&& y) ^^^ ((x ^^^ 4294967295) &&& z)
def majF (x y z : Nat) : Nat := (x &&& y) ^^^ (x &&& z) ^^^ (y &&& z)

/-- The 64 SHA-256 round constants. -/
def K256 : List Nat :=
  [1116352408, 1899447441, 3049323471, 3921009573, 961987163, 1508970993,
   2453635748, 2870763221, 3624381080, 310598401, 607225278, 1426881987,
   1925078388, 2162078206, 2614888103, 3248222580, 3835390401, 4022224774,
   264347078, 604807628, 770255983, 1249150122, 1555081692, 1996064986,
   2554220882, 2821834349, 2952996808, 3210313671, 3336571891, 3584528711,
   113926993, 338241895, 666307205, 773529912, 1294757372, 1396182291,
   1695183700, 1986661051, 2177026350, 2456956037, 2730485921, 2820302411,
   3259730800, 3345764771, 3516065817, 3600352804, 4094571909, 275423344,
   430227734, 506948616, 659060556, 883997877, 958139571, 1322822218,
   1537002063, 1747873779, 1955562222, 2024104815, 2227730452, 2361852424,
   2428436474, 2756734187, 3204031479, 3329325298]

/-- The SHA-256 initial hash state. -/
def H256 : List Nat :=
  [1779033703, 3144134277, 1013904242, 2773480762,
   1359893119, 2600822924, 528734635, 1541459225]

/-- Number of zero padding bytes so the padded length is 56 mod 64. -/
def padZeros (l : Nat) : Nat := (119 - (l % 64)) % 64

/-- Big-endian 8-byte encoding of the bit length. -/
def lenBytes (bits : Nat) : List Nat :=
  [(bits >>> 56) % 256, (bits >>> 48) % 256, (bits >>> 40) % 256, (bits >>> 32) % 256,
   (bits >>> 24) % 256, (bits >>> 16) % 256, (bits >>> 8) % 256, bits % 256]

/-- SHA-256 message padding. -/
def padMsg (m : List Nat) : List Nat :=
  m ++ 128 :: List.replicate (padZeros m.length) 0 ++ lenBytes (8 * m.length)

/-- Chop into 64-byte blocks (fuel-driven; fuel bounds the number of blocks). -/
def toBlocksAux : Nat → List Nat → List (List Nat)
  | 0, _ => []
  | _, [] => []
  | fuel + 1, l => l.take 64 :: toBlocksAux fuel (l.drop 64)

/-- Big-endian 4-byte groups to 32-bit words. -/
def toWords : List Nat → List Nat
  | a :: b :: c :: d :: rest => (((a * 256 + b) * 256 + c) * 256 + d) :: toWords rest
  | _ => []

/-- Nth scheduled word (0 when out of range). -/
def wget (w : List Nat) (i : Nat) : Nat := w.getD i 0

/-- Extend a 16-word block to the 64-word message schedule. -/
def schedLoop : Nat → List Nat → List Nat
  | 0, w => w
  | n + 1, w =>
    let t := w.length
    let nw := (wget w (t - 16) + smallSigma0 (wget w (t - 15)) +
               wget w (t - 7) + smallSigma1 (wget w (t - 2))) % M32
    schedLoop n (w ++ [nw])

/-- One SHA-256 round on the 8-word working state. -/
def roundFn (st : List Nat) (wk : Nat × Nat) : List Nat :=
  match st with
  | [a, b, c, d, e, f, g, h] =>
    let t1 := (h + bigSigma1 e + chF e f g + wk.2 + wk.1) % M32
    let t2 := (bigSigma0 a + majF a b c) % M32
    [(t1 + t2) % M32, a, b, c, (d + t1) % M32, e, f, g]
  | _ => st

/-- Compress one 64-byte block into the hash state. -/
def compressBlock (h : List Nat) (block : List Nat) : List Nat :=
  let w := schedLoop 48 (toWords block)
  let st := (w.zip K256).foldl roundFn h
  (h.zip st).map (fun p => (p.1 + p.2) % M32)

/-- Big-endian bytes of one 32-bit word. -/
def wordBytes (w : Nat) : List Nat :=
  [(w >>> 24) % 256, (w >>> 16) % 256, (w >>> 8) % 256, w % 256]

/-- `hashlib.sha256(m).digest()` as a list of 32 bytes. -/
def sha256 (m : List Nat) : List Nat :=
  (((toBlocksAux (padMsg m).length (padMsg m)).foldl compressBlock H256).map wordBytes).flatten

def hexDigit (n : Nat) : Char := if n < 10 then Char.ofNat (48 + n) else Char.ofNat (87 + n)

def byteHex (b : Nat) : Str := [hexDigit (b / 16), hexDigit (b % 16)]

/-- `hashlib.sha256(m).hexdigest()`. -/
def sha256hex (m : List Nat) : Str := ((sha256 m).map byteHex).flatten

/-- `s.encode('utf-8')` for ASCII strings (each character is one byte). -/
def encodeAscii (s : Str) : List Nat := s.map Char.toNat

/- ### urllib.parse model (urlparse / urlunparse as used by normalize_url)

Models CPython's `urlsplit`/`urlparse`/`urlunsplit`/`urlunparse`.  Omitted,
with no effect on the properties proved here: the WHATWG control-character
preprocessing (identity on URLs free of ASCII controls, tab, CR, LF), the
`_checknetloc` NFKC check (identity on ASCII netlocs), and bracketed-host
validation beyond the bracket-mismatch `ValueError` (modelled as `none`). -/

/-- `c.isascii() and c.isalpha()`: an ASCII letter. -/
def pyAlpha (c : Char) : Bool :=
  (65 ≤ c.toNat && c.toNat ≤ 90) || (97 ≤ c.toNat && c.toNat ≤ 122)

/-- An ASCII digit. -/
def pyDigit (c : Char) : Bool := 48 ≤ c.toNat && c.toNat ≤ 57

/-- Characters allowed after the first letter of a URL scheme. -/
def schemeChar (c : Char) : Bool :=
  pyAlpha c || pyDigit c || c == '+' || c == '-' || c == '.'

/-- A valid scheme name: nonempty, ASCII letter first, scheme chars after. -/
def validSchemeName : Str → Bool
  | [] => false
  | c :: cs => pyAlpha c && cs.all schemeChar

/-- Split `scheme:rest`, lower-casing the scheme; no scheme gives `([], url)`. -/
def splitScheme (url : Str) : Str × Str :=
  let pre := url.takeWhile (fun c => c != ':')
  match url.dropWhile (fun c => c != ':') with
  | [] => ([], url)
  | _ :: rest => if validSchemeName pre then (lower pre, rest) else ([], url)

/-- A character ending the netloc section. -/
def netlocDelim (c : Char) : Bool := c == '/' || c == '?' || c == '#'

/-- Split `//netloc rest` when the input starts with two slashes. -/
def splitNetloc (url : Str) : Str × Str :=
  match url with
  | '/' :: '/' :: rest =>
    (rest.takeWhile (fun c => !netlocDelim c), rest.dropWhile (fun c => !netlocDelim c))
  | l => ([], l)

/-- Split at the first occurrence of `sep`, dropping it; absent sep keeps all. -/
def splitOnCharFirst (sep : Char) (s : Str) : Str × Str :=
  (s.takeWhile (fun c => c != sep), (s.dropWhile (fun c => c != sep)).drop 1)

/-- The `Invalid IPv6 URL` condition: one bracket without its partner. -/
def bracketMismatch (netloc : Str) : Bool :=
  (netloc.contains '[' && !netloc.contains ']') ||
  (netloc.contains ']' && !netloc.contains '[')

structure SplitResult where
  scheme : Str
  netloc : Str
  path : Str
  query : Str
  fragment : Str
deriving Repr, DecidableEq

/-- `urllib.parse.urlsplit`; `none` models the raised `ValueError`. -/
def urlsplit (url : Str) : Option SplitResult :=
  let (scheme, u1) := splitScheme url
  let (netloc, u2) := splitNetloc u1
  if bracketMismatch netloc then none
  else
    let (u3, fragment) := splitOnCharFirst '#' u2
    let (path, query) := splitOnCharFirst '?' u3
    some ⟨scheme, netloc, path, query, fragment⟩

/-- `_splitparams`: split at the first `;` at or after the last `/`. -/
def splitparams (url : Str) : Str × Str :=
  if url.contains '/' then
    let rpre := url.reverse.dropWhile (fun c => c != '/')
    let suf := (url.reverse.takeWhile (fun c => c != '/')).reverse
    if suf.contains ';' then
      let a := suf.takeWhile (fun c => c != ';')
      let b := (suf.dropWhile (fun c => c != ';')).drop 1
      (rpre.reverse ++ a, b)
    else (url, [])
  else (url.takeWhile (fun c => c != ';'), (url.dropWhile (fun c => c != ';')).drop 1)

structure ParseResult where
  scheme : Str
  netloc : Str
  path : Str
  params : Str
  query : Str
  fragment : Str
deriving Repr, DecidableEq

/-- `urllib.parse.urlparse`; `none` models the raised `ValueError`. -/
def urlparse (url : Str) : Option ParseResult :=
  match urlsplit url with
  | none => none
  | some r =>
    if r.path.contains ';' then
      let (p, par) := splitparams r.path
      some ⟨r.scheme, r.netloc, p, par, r.query, r.fragment⟩
    else some ⟨r.scheme, r.netloc, r.path, [], r.query, r.fragment⟩

/-- `urllib.parse.urlunsplit`. -/
def urlunsplit (scheme netloc path query fragment : Str) : Str :=
  let u1 :=
    if netloc ≠ [] ∨ (path ≠ [] ∧ path.take 2 = ['/', '/']) then
      let p := if path ≠ [] ∧ path.take 1 ≠ ['/'] then '/' :: path else path
      '/' :: '/' :: (netloc ++ p)
    else path
  let u2 := if scheme ≠ [] then scheme ++ ':' :: u1 else u1
  let u3 := if query ≠ [] then u2 ++ '?' :: query else u2
  if fragment ≠ [] then u3 ++ '#' :: fragment else u3

/-- `urllib.parse.urlunparse`. -/
def urlunparse (scheme netloc path params query fragment : Str) : Str :=
  let p := if params ≠ [] then path ++ ';' :: params else path
  urlunsplit scheme netloc p query fragment

/- ### url_normalizer.py -/

/-- `URLNormalizer.normalize_url`: https upgrade, lower-cased netloc, trailing
slashes stripped (empty path becomes `/`), fragment dropped; a parse error is
caught and the URL returned unchanged. -/
def normalize_url (u : Str) : Str :=
  match urlparse u with
  | none => u
  | some p =>
    let scheme := if p.scheme = str "http" then str "https" else p.scheme
    let netloc := lower p.netloc
    let path0 := rstripSlash p.path
    let path := if path0 = [] then ['/'] else path0
    urlunparse scheme netloc path p.params p.query []

/-- `URLNormalizer.generate_url_hash`: SHA-256 hex digest of the normalized URL. -/
def generate_url_hash (u : Str) : Str := sha256hex (encodeAscii (normalize_url u))

/- ### mongodb.py (ArticleDatabase) -/

/-- One document of the `articles` collection / one `article_data` dict.
Optional fields model dict keys that may be absent (or hold `None`); the
`scraped_at`, `created_at`, `updated_at` timestamps are not part of any claim
and are left out of the record.  `article_id` is always present (the consumer
resolves it before any store access). -/
structure ArticleData where
  article_id : Str
  url : Option Str
  url_hash : Option Str
  source : Option Str
  category : Option Str
  priority : Option Str
  status : Option Str
  title : Option Str
  content : Option Str
  scrape_status : Option Str
  scrape_error : Option Str
  user_id : Option Str
  url_original : Option Str
  domain : Option Str
  published_at : Option Str
  enriched : Option Bool
deriving Repr, DecidableEq

/-- The `articles` collection in insertion order. -/
abbrev Database := List ArticleData

/-- `ArticleDatabase.get_article`: `find_one({'article_id': id})`. -/
def get_article (db : Database) (id : Str) : Option ArticleData :=
  db.find? (fun a => a.article_id == id)

/-- `find_one({'url_hash': h})` as used by `check_mongodb_cache`. -/
def findByHash (db : Database) (h : Str) : Option ArticleData :=
  db.find? (fun a => a.url_hash == some h)

/-- `ArticleDatabase.insert_article`: fails (DuplicateKeyError) when the unique
`article_id` or `url` index is violated, otherwise appends.  The
required-field presence check always passes for consumer-built dicts, which
carry every required key. -/
def insert_article (db : Database) (a : ArticleData) : Database × Bool :=
  if db.any (fun r => r.article_id == a.article_id || r.url == a.url) then (db, false)
  else (db ++ [a], true)

/-- Apply `f` to the first record with the given id (`update_one` + `$set`). -/
def updateFirst (id : Str) (f : ArticleData → ArticleData) : Database → Database
  | [] => []
  | r :: rest => if r.article_id == id then f r :: rest else r :: updateFirst id f rest

/-- `ArticleDatabase.update_article`: `$set` of the given fields on the first
matching record; the result Bool models `modified_count > 0` (the update
always refreshes `updated_at`, so any matched record counts as modified). -/
def update_article (db : Database) (id : Str) (f : ArticleData → ArticleData) :
    Database × Bool :=
  (updateFirst id f db, db.any (fun r => r.article_id == id))

/- ### cache.py (ArticleCache) -/

/-- The JSON projection stored in Redis by `set_redis_cache`: note it carries
no body-content field at all (content is deliberately excluded). -/
structure CacheEntry where
  article_id : Option Str
  url : Option Str
  url_hash : Option Str
  title : Option Str
  source : Option Str
  category : Option Str
  scrape_status : Option Str
  cached_at : Nat
deriving Repr, DecidableEq

/-- `Config.CACHE_ENABLED`, `CACHE_TTL`, `CACHE_PREFIX` (environment-driven). -/
structure CacheConfig where
  enabled : Bool
  ttl : Nat
  keyPrefix : Str
deriving Repr, DecidableEq

/-- The Redis keyspace: association list of key, TTL, entry. -/
abbrev RedisState := List (Str × Nat × CacheEntry)

/-- `GET key`. -/
def redisGet (rs : RedisState) (key : Str) : Option CacheEntry :=
  (rs.find? (fun e => e.1 == key)).map (fun e => e.2.2)

/-- `SETEX key ttl value`: overwrite or insert with a fresh TTL. -/
def redisSet (rs : RedisState) (key : Str) (ttl : Nat) (entry : CacheEntry) : RedisState :=
  if rs.any (fun e => e.1 == key) then
    rs.map (fun e => if e.1 == key then (key, ttl, entry) else e)
  else rs ++ [(key, ttl, entry)]

/-- `ArticleCache._generate_cache_key`: prefix plus SHA-256 hex digest of the
URL string exactly as passed (no normalization is applied here). -/
def generate_cache_key (cfg : CacheConfig) (url : Str) : Str :=
  cfg.keyPrefix ++ sha256hex (encodeAscii url)

/-- `ArticleCache.check_redis_cache`. -/
def check_redis_cache (cfg : CacheConfig) (rs : RedisState) (url : Str) :
    Option CacheEntry :=
  if cfg.enabled then redisGet rs (generate_cache_key cfg url) else none

/-- `ArticleCache.check_mongodb_cache`: durable lookup by the pre-computed
fingerprint `url_hash` (the url argument is only logged). -/
def check_mongodb_cache (cfg : CacheConfig) (db : Database) (_url : Str)
    (url_hash : Str) : Option ArticleData :=
  if cfg.enabled then findByHash db url_hash else none

/-- The trimmed projection written by `set_redis_cache` (content excluded). -/
def cacheProjection (now : Nat) (a : ArticleData) : CacheEntry :=
  { article_id := some a.article_id, url := a.url, url_hash := a.url_hash,
    title := a.title, source := a.source, category := a.category,
    scrape_status := a.scrape_status, cached_at := now }

/-- `ArticleCache.set_redis_cache`. -/
def set_redis_cache (cfg : CacheConfig) (now : Nat) (rs : RedisState) (url : Str)
    (a : ArticleData) : RedisState × Bool :=
  if cfg.enabled then
    (redisSet rs (generate_cache_key cfg url) cfg.ttl (cacheProjection now a), true)
  else (rs, false)

/-- The decision dict returned by `should_scrape`; Python's single dynamically
typed `cached_data` value is split by provenance into two typed fields. -/
structure CacheDecision where
  should_scrape : Bool
  reason : Str
  cache_source : Option Str
  cached_redis : Option CacheEntry
  cached_mongo : Option ArticleData
deriving Repr, DecidableEq

/-- `ArticleCache.should_scrape`: forced or disabled short-circuits, then the
volatile cache, then the durable store (backfilling the volatile cache on a
durable hit); also returns the possibly-updated Redis state. -/
def should_scrape (cfg : CacheConfig) (now : Nat) (rs : RedisState) (db : Database)
    (url : Str) (url_hash : Str) (force : Bool := false) : CacheDecision × RedisState :=
  if force then
    (⟨true, str "forced", none, none, none⟩, rs)
  else if !cfg.enabled then
    (⟨true, str "cache_disabled", none, none, none⟩, rs)
  else
    match check_redis_cache cfg rs url with
    | some e => (⟨false, str "redis_cache_hit", some (str "redis"), some e, none⟩, rs)
    | none =>
      match check_mongodb_cache cfg db url url_hash with
      | some a =>
        let rs2 := (set_redis_cache cfg now rs url a).1
        (⟨false, str "mongodb_cache_hit", some (str "mongodb"), none, some a⟩, rs2)
      | none => (⟨true, str "no_cache", none, none, none⟩, rs)

/- ### scraper.py (ArticleScraper) -/

/-- Python whitespace for `str.strip()`. -/
def isSpace (c : Char) : Bool :=
  c == ' ' || c == '\t' || c == '\n' || c == '\r' || c == '\x0b' || c == '\x0c'

/-- `s.strip()`. -/
def pyStrip (s : Str) : Str := ((s.dropWhile isSpace).reverse.dropWhile isSpace).reverse

/-- Python's `needle in hay` substring test. -/
def isInfixL (needle : Str) : Str → Bool
  | [] => needle.isEmpty
  | c :: t => needle.isPrefixOf (c :: t) || isInfixL needle t

/-- `' '.join(xs)`. -/
def joinSpace : List Str → Str
  | [] => []
  | [x] => x
  | x :: xs => x ++ ' ' :: joinSpace xs

/-- First occurrence of `sep`: the text before it and the text after it. -/
def findSplit (sep : Str) : Str → Option (Str × Str)
  | [] => none
  | c :: rest =>
    if sep.isPrefixOf (c :: rest) then some ([], (c :: rest).drop sep.length)
    else
      match findSplit sep rest with
      | none => none
      | some (a, b) => some (c :: a, b)

/-- `s.split(sep)` for nonempty `sep` (fuel bounds the number of pieces). -/
def pySplitAux (sep : Str) : Nat → Str → List Str
  | 0, s => [s]
  | fuel + 1, s =>
    match findSplit sep s with
    | none => [s]
    | some (a, b) => a :: pySplitAux sep fuel b

def pySplit (sep s : Str) : List Str := pySplitAux sep (s.length + 1) s

/-- `max(parts, key=len)`: the first part of maximal length. -/
def maxByLen : List Str → Str
  | [] => []
  | x :: xs => xs.foldl (fun b p => if p.length > b.length then p else b) x

/-- An h1 element: its class attribute values and its
`get_text(separator=' ', strip=True)` text. -/
structure H1Elem where
  classes : List Str
  text : Str
deriving Repr, DecidableEq

/-- A div element: classes, text, and its first inner h1 (`div.find('h1')`). -/
structure DivElem where
  classes : List Str
  text : Str
  h1 : Option H1Elem
deriving Repr, DecidableEq

/-- The article element: its first inner h1 and its text. -/
structure ArticleElem where
  h1 : Option H1Elem
  text : Str
deriving Repr, DecidableEq

/-- The parsed document as queried by the extraction cascades: each field is
the result of the corresponding BeautifulSoup lookup, in document order.
`get_text` results are stored as the final extracted strings. -/
structure Soup where
  ogTitle : Option Str
  twitterTitle : Option Str
  metaNameTitle : Option Str
  h1s : List H1Elem
  headerH1s : List (Option H1Elem)
  articleTag : Option ArticleElem
  divs : List DivElem
  idElems : List (Str × Str)
  mainTag : Option Str
  paragraphs : List Str
  titleTag : Option Str
deriving Repr, DecidableEq

/-- A document with no markup at all (all lookups empty). -/
def emptySoup : Soup := ⟨none, none, none, [], [], none, [], [], none, [], none⟩

def titleClasses : List Str :=
  [str "entry-title", str "article-title", str "post-title", str "title",
   str "headline", str "article-headline", str "post-headline",
   str "page-title", str "single-title", str "story-title", str "td-post-title"]

def headerDivClasses : List Str :=
  [str "entry-header", str "article-header", str "post-header", str "content-header"]

def skipKeywords : List Str :=
  [str "menu", str "navigation", str "skip to", str "search", str "logo"]

def titleSeparators : List Str := [str " | ", str " - ", str " :: ", str " — "]

/-- `element.get('content', '').strip()` followed by the truthiness test. -/
def metaPick (v : Option Str) : Option Str :=
  match v with
  | none => none
  | some t => let t := pyStrip t; if t ≠ [] then some t else none

/-- `if title and len(title) > 5`. -/
def titleOk (t : Str) : Bool := !t.isEmpty && t.length > 5

/-- `' '.join(classes).lower()`. -/
def classStr (classes : List Str) : Str := lower (joinSpace classes)

/-- `soup.find('div', class_=c)`: first div whose class list contains `c`. -/
def findDivByClass (divs : List DivElem) (c : Str) : Option DivElem :=
  divs.find? (fun d => d.classes.any (fun x => x == c))

def orO (a b : Option Str) : Option Str :=
  match a with
  | some x => some x
  | none => b

/-- Title priority 1: an h1 carrying a known article-title class. -/
def titleFromClassedH1 (soup : Soup) : Option Str :=
  ((soup.h1s.take 10).find? (fun h =>
      !h.classes.isEmpty &&
      titleClasses.any (fun tc => isInfixL tc (classStr h.classes)) &&
      titleOk h.text)).map (fun h => h.text)

/-- Title priority 2: an h1 inside a header element. -/
def titleFromHeader (soup : Soup) : Option Str :=
  (((soup.headerH1s.take 5).filterMap id).find? (fun h => titleOk h.text)).map
    (fun h => h.text)

/-- Title priority 3: an h1 inside the article element. -/
def titleFromArticle (soup : Soup) : Option Str :=
  match soup.articleTag with
  | some a =>
    match a.h1 with
    | some h => if titleOk h.text then some h.text else none
    | none => none
  | none => none

/-- Title priority 4: an h1 inside a known header-wrapper div. -/
def titleFromHeaderDiv (soup : Soup) : Option Str :=
  headerDivClasses.findSome? (fun sel =>
    match findDivByClass soup.divs sel with
    | some d =>
      match d.h1 with
      | some h => if titleOk h.text then some h.text else none
      | none => none
    | none => none)

/-- Title priority 5: any non-navigational h1. -/
def titleFromAnyH1 (soup : Soup) : Option Str :=
  (soup.h1s.take 10).findSome? (fun h =>
    if titleOk h.text && !(skipKeywords.any (fun k => isInfixL k (lower h.text)))
    then some h.text else none)

/-- Title-tag cleanup: split on the first matching separator and keep the
longest segment, stripped. -/
def cleanTitleTag (t : Str) : Str :=
  match titleSeparators.findSome? (fun sep =>
      match findSplit sep t with
      | some _ => some sep
      | none => none) with
  | some sep => pyStrip (maxByLen (pySplit sep t))
  | none => t

/-- Title fallback: the document title tag. -/
def titleFromTitleTag (soup : Soup) : Option Str :=
  match soup.titleTag with
  | none => none
  | some raw =>
    let t := pyStrip raw
    if titleOk t then some (cleanTitleTag t) else none

/-- `ArticleScraper._extract_title`: the prioritized cascade. -/
def extract_title (soup : Soup) : Option Str :=
  orO (metaPick soup.ogTitle) <|
  orO (metaPick soup.twitterTitle) <|
  orO (metaPick soup.metaNameTitle) <|
  orO (titleFromClassedH1 soup) <|
  orO (titleFromHeader soup) <|
  orO (titleFromArticle soup) <|
  orO (titleFromHeaderDiv soup) <|
  orO (titleFromAnyH1 soup) <|
  titleFromTitleTag soup

def contentClasses : List Str :=
  [str "entry-content", str "article-content", str "post-content", str "content",
   str "article-body", str "post-body", str "story-content", str "story-body",
   str "main-content", str "page-content", str "single-content"]

def contentKeywords : List Str :=
  [str "content", str "article", str "post", str "body", str "story"]

def contentIds : List Str := [str "content", str "article", str "main", str "post"]

/-- `if content and len(content) > 100: return content[:5000]`. -/
def acceptContent (t : Str) : Option Str :=
  if !t.isEmpty && t.length > 100 then some (t.take 5000) else none

/-- `ArticleScraper._extract_content`: the prioritized cascade. -/
def extract_content (soup : Soup) : Option Str :=
  orO ((soup.articleTag).bind (fun a => acceptContent a.text)) <|
  orO (contentClasses.findSome? (fun c =>
        (findDivByClass soup.divs c).bind (fun d => acceptContent d.text))) <|
  orO (soup.divs.findSome? (fun d =>
        if !d.classes.isEmpty &&
           contentKeywords.any (fun k => isInfixL k (classStr d.classes))
        then acceptContent d.text else none)) <|
  orO (contentIds.findSome? (fun i =>
        (soup.idElems.find? (fun e => e.1 == i)).bind (fun e => acceptContent e.2))) <|
  orO ((soup.mainTag).bind acceptContent) <|
  (if !soup.paragraphs.isEmpty then acceptContent (joinSpace (soup.paragraphs.take 15))
   else none)

/-- What one fetch attempt does: an HTTP response with a parsed document, or
one of the exception classes caught by the retry loop. -/
inductive FetchOutcome where
  | ok (statusCode : Nat) (soup : Soup)
  | timeout
  | connError
  | reqError (msg : Str)
  | exc (msg : Str)
deriving Repr, DecidableEq

/-- The result dict of `scrape_article`. -/
structure ScrapeResult where
  url : Str
  title : Option Str
  content : Option Str
  status : Str
  error : Option Str
deriving Repr, DecidableEq

/-- A scrape run: its result plus the observable attempt/backoff counters. -/
structure ScrapeRun where
  result : ScrapeResult
  attempts : Nat
  totalDelay : Nat
deriving Repr, DecidableEq

def mkFailed (url e : Str) : ScrapeResult := ⟨url, none, none, str "failed", some e⟩

/-- Truthiness of the extracted title (`if title:`). -/
def titleTruthy : Option Str → Bool
  | some t => !t.isEmpty
  | none => false

/-- Parse a 200 response: extract title and content, derive the status. -/
def parseAttempt (url : Str) (soup : Soup) : ScrapeResult :=
  let title := extract_title soup
  let content := extract_content soup
  if titleTruthy title then ⟨url, title, content, str "success", none⟩
  else ⟨url, title, content, str "partial", some (str "No title found")⟩

/-- The retry loop body of `scrape_article`.  `attempt` is the 0-based loop
index, `fuel` the remaining iterations (`max_retries - attempt`), `delay` the
accumulated backoff sleep in seconds, `made` the attempts performed so far.
Exhausted fuel is the post-loop `Max retries exceeded` fallback. -/
def scrapeGo (fetch : Nat → FetchOutcome) (url : Str) (maxr : Nat) :
    Nat → Nat → Nat → Nat → ScrapeRun
  | _, 0, delay, made => ⟨mkFailed url (str "Max retries exceeded"), made, delay⟩
  | attempt, fuel + 1, delay, made =>
    let delay := if attempt > 0 then delay + 2 ^ attempt else delay
    let made := made + 1
    match fetch attempt with
    | .ok code soup =>
      if code = 403 ∧ attempt < maxr - 1 then
        scrapeGo fetch url maxr (attempt + 1) fuel delay made
      else if code ≠ 200 then
        ⟨mkFailed url (str "HTTP " ++ (toString code).data), made, delay⟩
      else ⟨parseAttempt url soup, made, delay⟩
    | .timeout =>
      if attempt < maxr - 1 then scrapeGo fetch url maxr (attempt + 1) fuel delay made
      else ⟨mkFailed url (str "Request timeout"), made, delay⟩
    | .connError =>
      if attempt < maxr - 1 then scrapeGo fetch url maxr (attempt + 1) fuel delay made
      else ⟨mkFailed url (str "Connection error"), made, delay⟩
    | .reqError m =>
      if attempt < maxr - 1 then scrapeGo fetch url maxr (attempt + 1) fuel delay made
      else ⟨mkFailed url (str "Request error: " ++ m), made, delay⟩
    | .exc m =>
      if attempt < maxr - 1 then scrapeGo fetch url maxr (attempt + 1) fuel delay made
      else ⟨mkFailed url (str "Unexpected error: " ++ m), made, delay⟩

/-- `ArticleScraper.scrape_article` with the fetch behaviour of the target
supplied as an environment mapping the attempt index to its outcome. -/
def scrape_article (fetch : Nat → FetchOutcome) (url : Str) (maxr : Nat := 3) :
    ScrapeRun :=
  scrapeGo fetch url maxr 0 maxr 0 0

/- ### consumer.py (ArticleConsumer.process_single_article) -/

/-- A dequeued task dict; optional fields model absent keys. -/
structure Task where
  article_id : Option Str
  id : Option Str
  url : Option Str
  url_hash : Option Str
  source : Option Str
  category : Option Str
  priority : Option Str
  user_id : Option Str
  url_original : Option Str
  domain : Option Str
  published_at : Option Str
  enriched : Option Bool
deriving Repr, DecidableEq

/-- `task_data.get('article_id') or task_data.get('id', 'unknown')` with
Python truthiness (an empty string falls through). -/
def resolveId (t : Task) : Str :=
  match t.article_id with
  | some s => if s ≠ [] then s else t.id.getD (str "unknown")
  | none => t.id.getD (str "unknown")

/-- The consumer's run statistics (concurrent_peak is not task-scoped). -/
structure Stats where
  processed : Nat
  successful : Nat
  failed : Nat
  duplicates : Nat
  cached : Nat
deriving Repr, DecidableEq

def bumpCached (s : Stats) : Stats :=
  { s with cached := s.cached + 1, successful := s.successful + 1,
           processed := s.processed + 1 }

def bumpDup (s : Stats) : Stats :=
  { s with duplicates := s.duplicates + 1, processed := s.processed + 1 }

def bumpSucc (s : Stats) : Stats :=
  { s with successful := s.successful + 1, processed := s.processed + 1 }

def bumpFail (s : Stats) : Stats :=
  { s with failed := s.failed + 1, processed := s.processed + 1 }

/-- The shared state one task touches: the volatile cache, the durable store
and the statistics counters. -/
structure PipelineState where
  redis : RedisState
  db : Database
  stats : Stats
deriving Repr, DecidableEq

/-- Which store write the task performed (the code's `operation` variable). -/
inductive StoreOp where
  | inserted
  | updated
deriving Repr, DecidableEq

/-- Observable outcome of `process_single_article`: its return value, the new
shared state, whether the scraper was invoked, and the store operation chosen
on the scrape path. -/
structure ProcResult where
  retval : Bool
  state : PipelineState
  scraped : Bool
  op : Option StoreOp
deriving Repr, DecidableEq

/-- The `article_data` dict built on the cache-hit insert path.  The cached
Redis projection never carries a content key, so `content` is always `None`
there; enriched fields are copied from the task when present. -/
def cachePathData (task : Task) (id : Str) (cached : Option CacheEntry) : ArticleData :=
  { article_id := id, url := task.url, source := task.source,
    category := task.category, priority := task.priority,
    status := some (str "completed"),
    title := cached.bind (fun c => c.title), content := none,
    scrape_status := none, scrape_error := none, user_id := task.user_id,
    url_hash := task.url_hash, url_original := task.url_original,
    domain := task.domain, published_at := task.published_at,
    enriched := task.enriched }

/-- The `article_data` dict built on the scrape path. -/
def scrapePathData (task : Task) (id : Str) (res : ScrapeResult) : ArticleData :=
  { article_id := id, url := task.url, source := task.source,
    category := task.category, priority := task.priority,
    status := some (if res.status = str "success" then str "completed" else str "failed"),
    title := res.title, content := res.content,
    scrape_status := some res.status, scrape_error := res.error,
    user_id := task.user_id,
    url_hash := task.url_hash, url_original := task.url_original,
    domain := task.domain, published_at := task.published_at,
    enriched := task.enriched }

/-- `$set` of the scrape-path dict onto an existing record: unconditional keys
overwrite (even with `None`); enriched keys only when the task carries them. -/
def applyScrapeUpdate (task : Task) (d old : ArticleData) : ArticleData :=
  { d with
    url_hash := if task.url_hash.isSome then task.url_hash else old.url_hash,
    url_original := if task.url_original.isSome then task.url_original else old.url_original,
    domain := if task.domain.isSome then task.domain else old.domain,
    published_at := if task.published_at.isSome then task.published_at else old.published_at,
    enriched := if task.enriched.isSome then task.enriched else old.enriched }

/-- `ArticleConsumer.process_single_article`.  The scraper is passed as a
function from URL to result (the consumer calls `scraper.scrape_article(url)`);
`now` stands for `datetime.utcnow()`. -/
def process_single_article (cfg : CacheConfig) (scraper : Str → ScrapeResult)
    (now : Nat) (st : PipelineState) (task : Task) : ProcResult :=
  let id := resolveId task
  match task.url with
  | none => ⟨false, st, false, none⟩
  | some u =>
    if u = [] then ⟨false, st, false, none⟩
    else
      let uhash := task.url_hash.getD []
      let dr := should_scrape cfg now st.redis st.db u uhash
      let dec := dr.1
      let rs1 := dr.2
      if dec.should_scrape then
        match get_article st.db id with
        | some existing =>
          if existing.status = some (str "completed") ∨
             existing.status = some (str "failed") then
            ⟨true, ⟨rs1, st.db, bumpDup st.stats⟩, false, none⟩
          else
            let res := scraper u
            let data := scrapePathData task id res
            let ud := update_article st.db id (applyScrapeUpdate task data)
            if ud.2 then
              let rs2 := (set_redis_cache cfg now rs1 u data).1
              if res.status = str "success" then
                ⟨true, ⟨rs2, ud.1, bumpSucc st.stats⟩, true, some .updated⟩
              else
                ⟨false, ⟨rs2, ud.1, bumpFail st.stats⟩, true, some .updated⟩
            else
              ⟨false, ⟨rs1, ud.1, bumpFail st.stats⟩, true, some .updated⟩
        | none =>
          let res := scraper u
          let data := scrapePathData task id res
          let ins := insert_article st.db data
          if ins.2 then
            let rs2 := (set_redis_cache cfg now rs1 u data).1
            if res.status = str "success" then
              ⟨true, ⟨rs2, ins.1, bumpSucc st.stats⟩, true, some .inserted⟩
            else
              ⟨false, ⟨rs2, ins.1, bumpFail st.stats⟩, true, some .inserted⟩
          else
            ⟨false, ⟨rs1, ins.1, bumpFail st.stats⟩, true, some .inserted⟩
      else
        match get_article st.db id with
        | some _ =>
          let ud := update_article st.db id
            (fun old => { old with status := some (str "completed") })
          ⟨true, ⟨rs1, ud.1, bumpCached st.stats⟩, false, none⟩
        | none =>
          let cached := check_redis_cache cfg rs1 u
          let data := cachePathData task id cached
          let ins := insert_article st.db data
          ⟨true, ⟨rs1, ins.1, bumpCached st.stats⟩, false, none⟩

/-! ## Theorems -/

/- ### C5: title-tag fallback on a bare title document -/

/-- The C5 document: nothing but `<title>Foo | Bar News</title>`. -/
def soupC5 : Soup := { emptySoup with titleTag := some (str "Foo | Bar News") }

/- ### C9: content length bounds -/

/-- A document whose article body is 101 characters long. -/
def soupC9 : Soup := { emptySoup with articleTag := some ⟨none, List.replicate 101 'a'⟩ }

/- ### C4 / C8: retry loop -/

/-- The retryable outcomes paired with the error their final attempt reports. -/
def stepFinal : FetchOutcome → Option Str
  | .timeout => some (str "Request timeout")
  | .connError => some (str "Connection error")
  | .ok code _ => if code = 403 then some (str "HTTP " ++ (toString code).data) else none
  | .reqError m => some (str "Request error: " ++ m)
  | .exc m => some (str "Unexpected error: " ++ m)

/-- The C8 target: HTTP 403 on the first two attempts, 200 on the third. -/
def fetch403Twice : Nat → FetchOutcome := fun a =>
  if a < 2 then FetchOutcome.ok 403 emptySoup
  else FetchOutcome.ok 200 { emptySoup with titleTag := some (str "A Fine Headline") }

/- ### C3: cache-aside decision -/

/- ### C6: cache keys hash the raw URL -/

/-- A config and a stored record used by the C6 counterexample. -/
def cfg6 : CacheConfig := ⟨true, 3600, str "article_cache:"⟩

def dataC6 : ArticleData :=
  { article_id := str "a1", url := some (str "http://example.com/a"),
    url_hash := some (str "h"), source := none, category := none, priority := none,
    status := some (str "completed"), title := some (str "T"),
    content := some (str "B"), scrape_status := some (str "success"),
    scrape_error := none, user_id := none, url_original := none, domain := none,
    published_at := none, enriched := none }

/- ### C1 / C2 / C7: the consumer's task processing -/

/-- A scraper stub used by concrete consumer scenarios. -/
def scraperNop : Str → ScrapeResult :=
  fun u => ⟨u, none, none, str "failed", some (str "boom")⟩

/-- A stored record that is terminal but carries a different fingerprint than
the incoming task. -/
def recC1 : ArticleData :=
  { article_id := str "a1", url := some (str "u0"), url_hash := some (str "h0"),
    source := none, category := none, priority := none,
    status := some (str "failed"), title := none, content := none,
    scrape_status := none, scrape_error := none, user_id := none,
    url_original := none, domain := none, published_at := none, enriched := none }

def taskC1 : Task :=
  { article_id := some (str "a1"), id := none, url := some (str "u"),
    url_hash := some (str "h1"), source := none, category := none,
    priority := none, user_id := none, url_original := none, domain := none,
    published_at := none, enriched := none }

def stC1 : PipelineState := ⟨[], [recC1], ⟨0, 0, 0, 0, 0⟩⟩

/-- The terminal record and matching-fingerprint task of the C2 scenario. -/
def recC2 : ArticleData :=
  { article_id := str "a1", url := some (str "u"), url_hash := some (str "h"),
    source := none, category := none, priority := none,
    status := some (str "failed"), title := none, content := none,
    scrape_status := none, scrape_error := none, user_id := none,
    url_original := none, domain := none, published_at := none, enriched := none }

def taskC2 : Task :=
  { article_id := some (str "a1"), id := none, url := some (str "u"),
    url_hash := some (str "h"), source := none, category := none,
    priority := none, user_id := none, url_original := none, domain := none,
    published_at := none, enriched := none }

def stC2 : PipelineState := ⟨[], [recC2], ⟨0, 0, 0, 0, 0⟩⟩

/- ### C10: normalize_url idempotence -/

/-- The guard of the amended claim: the parsed path carries no semicolon
(equivalently, `urlparse` finds no params). -/
def pathSemiFree (u : Str) : Bool :=
  match urlsplit u with
  | none => true
  | some r => !r.path.contains ';'

/-- C5 counterexample: for the document containing only
`<title>Foo | Bar News</title>`, `_extract_title` does NOT yield `"Foo"` —
`max(parts, key=len)` keeps the longest separator segment, which is
`"Bar News"`, not `"Foo"`. -/
theorem extract_title_bare_titleTag_not_foo :
    extract_title soupC5 ≠ some (str "Foo") := by decide

/-- C5 (amended): for the document containing only
`<title>Foo | Bar News</title>` and no content containers, extraction yields
title `"Bar News"` (the longest segment on the first matching common
separator) and content `None`. -/
theorem extract_title_bare_titleTag_longest_segment :
    extract_title soupC5 = some (str "Bar News") ∧ extract_content soupC5 = none := by
  decide

/-- Every accepted candidate is longer than 100 and truncated to 5000. -/
theorem goodLen_of_acceptContent {t c : Str} (h : acceptContent t = some c) :
    100 < c.length ∧ c.length ≤ 5000 := by
  unfold acceptContent at h
  split at h
  · rename_i hc
    injection h with h
    subst h
    rw [List.length_take]
    simp only [Bool.and_eq_true, decide_eq_true_eq] at hc
    omega
  · exact absurd h (by simp)

theorem orO_cases {a b : Option Str} {c : Str} (h : orO a b = some c) :
    a = some c ∨ b = some c := by
  cases a with
  | some x => exact Or.inl h
  | none => exact Or.inr h

/-- C9: every non-None content value returned by the `_extract_content`
cascade has length strictly greater than 100 and at most 5000 characters. -/
theorem extract_content_length_bounds (soup : Soup) (c : Str)
    (h : extract_content soup = some c) : 100 < c.length ∧ c.length ≤ 5000 := by
  unfold extract_content at h
  rcases orO_cases h with h | h
  · obtain ⟨a, -, h2⟩ := Option.bind_eq_some.mp h
    exact goodLen_of_acceptContent h2
  rcases orO_cases h with h | h
  · obtain ⟨cl, -, h2⟩ := List.exists_of_findSome?_eq_some h
    obtain ⟨d, -, h3⟩ := Option.bind_eq_some.mp h2
    exact goodLen_of_acceptContent h3
  rcases orO_cases h with h | h
  · obtain ⟨d, -, h2⟩ := List.exists_of_findSome?_eq_some h
    split at h2
    · exact goodLen_of_acceptContent h2
    · exact absurd h2 (by simp)
  rcases orO_cases h with h | h
  · obtain ⟨i, -, h2⟩ := List.exists_of_findSome?_eq_some h
    obtain ⟨d, -, h3⟩ := Option.bind_eq_some.mp h2
    exact goodLen_of_acceptContent h3
  rcases orO_cases h with h | h
  · obtain ⟨m, -, h2⟩ := Option.bind_eq_some.mp h
    exact goodLen_of_acceptContent h2
  · split at h
    · exact goodLen_of_acceptContent h
    · exact absurd h (by simp)

theorem extract_content_length_bounds_witness :
    100 < (List.replicate 101 'a').length ∧ (List.replicate 101 'a').length ≤ 5000 :=
  extract_content_length_bounds soupC9 (List.replicate 101 'a') (by decide)

/-- C4 counterexample: a target that times out on every attempt (a retryable
error on the final attempt) is reported as `failed` with the last attempt's
own error `Request timeout`, not with the `Max retries exceeded` error the
claim requires. -/
theorem scrape_final_timeout_reports_timeout :
    (scrape_article (fun _ => FetchOutcome.timeout) (str "https://e.com/x") 3).result.status
        = str "failed" ∧
    (scrape_article (fun _ => FetchOutcome.timeout) (str "https://e.com/x") 3).result.error
        = some (str "Request timeout") ∧
    (scrape_article (fun _ => FetchOutcome.timeout) (str "https://e.com/x") 3).result.error
        ≠ some (str "Max retries exceeded") := by decide

/-- A target whose every attempt yields the same retryable outcome exhausts
all attempts and reports that outcome's own error. -/
theorem scrapeGo_const_final (o : FetchOutcome) (e url : Str) (maxr : Nat)
    (he : stepFinal o = some e) :
    ∀ fuel attempt delay made, attempt + fuel = maxr → 1 ≤ fuel →
      (scrapeGo (fun _ => o) url maxr attempt fuel delay made).result = mkFailed url e ∧
      (scrapeGo (fun _ => o) url maxr attempt fuel delay made).attempts = made + fuel := by
  intro fuel
  induction fuel with
  | zero => intro _ _ _ _ h1; omega
  | succ k ih =>
    intro attempt delay made hsum _
    by_cases hk : k = 0
    · subst hk
      have hnl : ¬(attempt < maxr - 1) := by omega
      cases o with
      | ok code soup =>
        simp only [stepFinal] at he
        split at he
        · rename_i h403
          injection he with he'
          subst h403
          simp only [scrapeGo]
          rw [if_neg (fun hc => hnl hc.2), if_pos (by decide)]
          exact ⟨by rw [← he'], rfl⟩
        · exact absurd he (by simp)
      | timeout =>
        simp only [stepFinal] at he
        injection he with he'
        simp only [scrapeGo]
        rw [if_neg hnl]
        exact ⟨by rw [← he'], rfl⟩
      | connError =>
        simp only [stepFinal] at he
        injection he with he'
        simp only [scrapeGo]
        rw [if_neg hnl]
        exact ⟨by rw [← he'], rfl⟩
      | reqError m =>
        simp only [stepFinal] at he
        injection he with he'
        simp only [scrapeGo]
        rw [if_neg hnl]
        exact ⟨by rw [← he'], rfl⟩
      | exc m =>
        simp only [stepFinal] at he
        injection he with he'
        simp only [scrapeGo]
        rw [if_neg hnl]
        exact ⟨by rw [← he'], rfl⟩
    · have hlt : attempt < maxr - 1 := by omega
      have hrec := ih (attempt + 1)
      cases o with
      | ok code soup =>
        have h403 : code = 403 := by
          simp only [stepFinal] at he
          split at he
          · assumption
          · exact absurd he (by simp)
        subst h403
        simp only [scrapeGo]
        rw [if_pos (show True ∧ attempt < maxr - 1 from ⟨trivial, hlt⟩)]
        refine ⟨(hrec _ _ (by omega) (by omega)).1, ?_⟩
        rw [(hrec _ _ (by omega) (by omega)).2]
        omega
      | timeout =>
        simp only [scrapeGo]
        rw [if_pos hlt]
        refine ⟨(hrec _ _ (by omega) (by omega)).1, ?_⟩
        rw [(hrec _ _ (by omega) (by omega)).2]
        omega
      | connError =>
        simp only [scrapeGo]
        rw [if_pos hlt]
        refine ⟨(hrec _ _ (by omega) (by omega)).1, ?_⟩
        rw [(hrec _ _ (by omega) (by omega)).2]
        omega
      | reqError m =>
        simp only [scrapeGo]
        rw [if_pos hlt]
        refine ⟨(hrec _ _ (by omega) (by omega)).1, ?_⟩
        rw [(hrec _ _ (by omega) (by omega)).2]
        omega
      | exc m =>
        simp only [scrapeGo]
        rw [if_pos hlt]
        refine ⟨(hrec _ _ (by omega) (by omega)).1, ?_⟩
        rw [(hrec _ _ (by omega) (by omega)).2]
        omega

/-- C4 (amended): a retryable error (HTTP 403, timeout, connection failure)
on the final attempt is reported as `failed` with the individual error of
that last attempt; the `Max retries exceeded` fallback after the loop is
never the reported error for `max_retries ≥ 1`. -/
theorem scrape_retryable_final_reports_last_error (maxr : Nat) (url : Str)
    (h : 1 ≤ maxr) :
    (scrape_article (fun _ => FetchOutcome.timeout) url maxr).result
        = mkFailed url (str "Request timeout") ∧
    (scrape_article (fun _ => FetchOutcome.connError) url maxr).result
        = mkFailed url (str "Connection error") ∧
    (scrape_article (fun _ => FetchOutcome.ok 403 emptySoup) url maxr).result
        = mkFailed url (str "HTTP 403") := by
  refine ⟨?_, ?_, ?_⟩
  · simp only [scrape_article]
    exact (scrapeGo_const_final FetchOutcome.timeout (str "Request timeout")
      url maxr rfl maxr 0 0 0 (by omega) h).1
  · simp only [scrape_article]
    exact (scrapeGo_const_final FetchOutcome.connError (str "Connection error")
      url maxr rfl maxr 0 0 0 (by omega) h).1
  · simp only [scrape_article]
    have h2 : str "HTTP " ++ (toString (403 : Nat)).data = str "HTTP 403" := by decide
    rw [(scrapeGo_const_final (FetchOutcome.ok 403 emptySoup)
      (str "HTTP " ++ (toString (403 : Nat)).data) url maxr (by decide)
      maxr 0 0 0 (by omega) h).1, h2]

theorem scrape_retryable_final_reports_last_error_witness :
    (scrape_article (fun _ => FetchOutcome.timeout) (str "u") 3).result
        = mkFailed (str "u") (str "Request timeout") :=
  (scrape_retryable_final_reports_last_error 3 (str "u") (by decide)).1

/-- C8: the 403/403/200 target succeeds with exactly 3 attempts and at least
6 seconds of accumulated backoff; an always-timing-out target fails after
exactly `max_retries` attempts. -/
theorem scrape_backoff_and_exhaustion (maxr : Nat) (url : Str) (h : 1 ≤ maxr) :
    ((scrape_article fetch403Twice (str "https://e.com/x") 3).result.status
        = str "success" ∧
     (scrape_article fetch403Twice (str "https://e.com/x") 3).attempts = 3 ∧
     6 ≤ (scrape_article fetch403Twice (str "https://e.com/x") 3).totalDelay) ∧
    ((scrape_article (fun _ => FetchOutcome.timeout) url maxr).result.status
        = str "failed" ∧
     (scrape_article (fun _ => FetchOutcome.timeout) url maxr).attempts = maxr) := by
  constructor
  · exact ⟨by decide, by decide, by decide⟩
  · have hr := scrapeGo_const_final FetchOutcome.timeout (str "Request timeout")
      url maxr rfl maxr 0 0 0 (by omega) h
    refine ⟨?_, ?_⟩
    · simp only [scrape_article]
      rw [hr.1]
      rfl
    · simp only [scrape_article]
      rw [hr.2]
      omega

/-- C3: `should_scrape` implements the cache-aside decision: `force` always
scrapes; otherwise a volatile (Redis) hit short-circuits with
`cache_source = "redis"` and no state change; on a volatile miss a durable
(Mongo) hit by the `url_hash` fingerprint backfills the volatile cache with
the TTL-bounded `cacheProjection` (which ignores body content) and returns
`cache_source = "mongodb"`; on a full miss the result is `should_scrape =
true`. -/
theorem should_scrape_cache_aside (cfg : CacheConfig) (now : Nat) (rs : RedisState)
    (db : Database) (url uhash : Str) (force : Bool) (hen : cfg.enabled = true) :
    (force = true →
      (should_scrape cfg now rs db url uhash force).1.should_scrape = true ∧
      (should_scrape cfg now rs db url uhash force).2 = rs) ∧
    (force = false →
      match redisGet rs (generate_cache_key cfg url) with
      | some _ =>
        (should_scrape cfg now rs db url uhash force).1.should_scrape = false ∧
        (should_scrape cfg now rs db url uhash force).1.cache_source = some (str "redis") ∧
        (should_scrape cfg now rs db url uhash force).2 = rs
      | none =>
        match findByHash db uhash with
        | some a =>
          (should_scrape cfg now rs db url uhash force).1.should_scrape = false ∧
          (should_scrape cfg now rs db url uhash force).1.cache_source
              = some (str "mongodb") ∧
          (should_scrape cfg now rs db url uhash force).2 =
            redisSet rs (generate_cache_key cfg url) cfg.ttl (cacheProjection now a)
        | none =>
          (should_scrape cfg now rs db url uhash force).1.should_scrape = true ∧
          (should_scrape cfg now rs db url uhash force).2 = rs) ∧
    (∀ (a : ArticleData) (c : Option Str),
      cacheProjection now { a with content := c } = cacheProjection now a) := by
  refine ⟨?_, ?_, fun a c => rfl⟩
  · intro hf; subst hf
    simp [should_scrape]
  · intro hf; subst hf
    cases hr : redisGet rs (generate_cache_key cfg url) with
    | some e =>
      simp [should_scrape, check_redis_cache, hen, hr]
    | none =>
      cases hm : findByHash db uhash with
      | some a =>
        simp [should_scrape, check_redis_cache, check_mongodb_cache,
          set_redis_cache, hen, hr, hm]
      | none =>
        simp [should_scrape, check_redis_cache, check_mongodb_cache, hen, hr, hm]

theorem should_scrape_cache_aside_witness :
    (should_scrape ⟨true, 3600, []⟩ 0 [] [] (str "u") (str "h") true).1.should_scrape
      = true :=
  ((should_scrape_cache_aside ⟨true, 3600, []⟩ 0 [] [] (str "u") (str "h") true
      rfl).1 rfl).1

/-- After overwriting the slot of key `k`, looking `k` up finds the fresh
value. -/
theorem find?_map_replace (k : Str) (ttl : Nat) (e : CacheEntry) :
    ∀ (rs : RedisState), rs.any (fun p => p.1 == k) = true →
      ((rs.map (fun p => if p.1 == k then (k, ttl, e) else p)).find?
          (fun p => p.1 == k)) = some (k, ttl, e) := by
  intro rs
  induction rs with
  | nil => intro h; simp at h
  | cons p rest ih =>
    intro h
    by_cases hp : p.1 == k
    · simp only [List.map_cons, hp, if_true]
      exact List.find?_cons_of_pos _ (by simp)
    · have h2 : rest.any (fun p => p.1 == k) = true := by
        simp only [List.any_cons] at h
        rcases Bool.or_eq_true_iff.mp h with h | h
        · exact absurd h hp
        · exact h
      simp only [List.map_cons, hp, if_false]
      rw [List.find?_cons_of_neg _ (by simpa using hp)]
      exact ih h2

/-- Appending a fresh slot for an absent key makes lookup find it. -/
theorem find?_append_fresh (k : Str) (ttl : Nat) (e : CacheEntry) (rs : RedisState)
    (h : rs.any (fun p => p.1 == k) = false) :
    ((rs ++ [(k, ttl, e)]).find? (fun p => p.1 == k)) = some (k, ttl, e) := by
  rw [List.find?_append]
  have h1 : rs.find? (fun p => p.1 == k) = none := by
    rw [List.find?_eq_none]
    intro x hx hpx
    rw [List.any_eq_false] at h
    exact h x hx hpx
  rw [h1]
  simp

/-- SETEX then GET on the same key returns the fresh entry. -/
theorem redisGet_redisSet (rs : RedisState) (k : Str) (ttl : Nat) (e : CacheEntry) :
    redisGet (redisSet rs k ttl e) k = some e := by
  unfold redisGet redisSet
  cases h : rs.any (fun p => p.1 == k) with
  | true =>
    rw [if_pos (rfl : true = true), find?_map_replace k ttl e rs h]
    rfl
  | false =>
    rw [if_neg (show ¬(false = true) by decide), find?_append_fresh k ttl e rs h]
    rfl

/-- C6 counterexample: `http://example.com/a` and `https://example.com/a`
normalize identically, yet `_generate_cache_key` (which hashes the URL string
as passed, without normalizing) gives them different keys, and a cache entry
written for the first is invisible to a read of the second. -/
theorem cache_key_ignores_normalization :
    normalize_url (str "http://example.com/a")
        = normalize_url (str "https://example.com/a") ∧
    generate_cache_key cfg6 (str "http://example.com/a")
        ≠ generate_cache_key cfg6 (str "https://example.com/a") ∧
    check_redis_cache cfg6
        (set_redis_cache cfg6 0 [] (str "http://example.com/a") dataC6).1
        (str "https://example.com/a") = none := by decide

/-- C6 (amended): the volatile-cache key is the configured prefix plus the
SHA-256 hex digest of the URL string exactly as passed (normalization happens
upstream, in the enricher); hence reads and writes for the same URL string
address the same entry — set followed by check on the same URL hits — while
distinct raw URLs sharing a normalized form may address different entries. -/
theorem cache_key_raw_url_roundtrip (cfg : CacheConfig) (now : Nat)
    (rs : RedisState) (url : Str) (a : ArticleData) (hen : cfg.enabled = true) :
    generate_cache_key cfg url = cfg.keyPrefix ++ sha256hex (encodeAscii url) ∧
    check_redis_cache cfg (set_redis_cache cfg now rs url a).1 url
        = some (cacheProjection now a) := by
  refine ⟨rfl, ?_⟩
  simp [check_redis_cache, set_redis_cache, hen, redisGet_redisSet]

theorem cache_key_raw_url_roundtrip_witness :
    generate_cache_key cfg6 (str "u")
        = cfg6.keyPrefix ++ sha256hex (encodeAscii (str "u")) ∧
    check_redis_cache cfg6 (set_redis_cache cfg6 0 [] (str "u") dataC6).1 (str "u")
        = some (cacheProjection 0 dataC6) :=
  cache_key_raw_url_roundtrip cfg6 0 [] (str "u") dataC6 rfl

theorem scrape_backoff_and_exhaustion_witness :
    (scrape_article (fun _ => FetchOutcome.timeout) (str "u") 3).result.status
        = str "failed" ∧
    (scrape_article (fun _ => FetchOutcome.timeout) (str "u") 3).attempts = 3 :=
  (scrape_backoff_and_exhaustion 3 (str "u") (by decide)).2

/-- A `should_scrape` decision to scrape never touches the Redis state. -/
theorem should_scrape_true_redis (cfg : CacheConfig) (now : Nat) (rs : RedisState)
    (db : Database) (url uhash : Str) (force : Bool)
    (h : (should_scrape cfg now rs db url uhash force).1.should_scrape = true) :
    (should_scrape cfg now rs db url uhash force).2 = rs := by
  cases force with
  | true => rfl
  | false =>
    cases hen : cfg.enabled with
    | false => simp [should_scrape, hen]
    | true =>
      revert h
      simp only [should_scrape, hen, Bool.not_true, if_false]
      cases hr : check_redis_cache cfg rs url with
      | some e => intro h; simp at h
      | none =>
        cases hm : check_mongodb_cache cfg db url uhash with
        | some a => intro h; simp at h
        | none => intro h; rfl

/-- In-place updates preserve the number of stored records. -/
theorem length_updateFirst (id : Str) (f : ArticleData → ArticleData) :
    ∀ db : Database, (updateFirst id f db).length = db.length := by
  intro db
  induction db with
  | nil => rfl
  | cons r rest ih =>
    unfold updateFirst
    by_cases hr : r.article_id == id
    · rw [if_pos hr]; rfl
    · rw [if_neg hr]
      simp only [List.length_cons, ih]

/-- C7: for every task that reaches the persistence decision with a
scrape-decision, the consumer first reads the record by article id: absent ⇒
it scrapes and inserts; present and terminal ⇒ it skips entirely (no scrape,
no store write, no cache write, counted as a duplicate); present and
non-terminal ⇒ it scrapes and updates the record in place. -/
theorem consumer_persistence_decision (cfg : CacheConfig)
    (scraper : Str → ScrapeResult) (now : Nat) (st : PipelineState) (task : Task)
    (u : Str) (hu : task.url = some u) (hne : u ≠ [])
    (hdec : (should_scrape cfg now st.redis st.db u
        (task.url_hash.getD [])).1.should_scrape = true) :
    (get_article st.db (resolveId task) = none →
      (process_single_article cfg scraper now st task).scraped = true ∧
      (process_single_article cfg scraper now st task).op = some StoreOp.inserted ∧
      (process_single_article cfg scraper now st task).state.db =
        (insert_article st.db (scrapePathData task (resolveId task) (scraper u))).1) ∧
    (∀ ex, get_article st.db (resolveId task) = some ex →
      ((ex.status = some (str "completed") ∨ ex.status = some (str "failed")) →
        (process_single_article cfg scraper now st task).retval = true ∧
        (process_single_article cfg scraper now st task).scraped = false ∧
        (process_single_article cfg scraper now st task).op = none ∧
        (process_single_article cfg scraper now st task).state.db = st.db ∧
        (process_single_article cfg scraper now st task).state.redis = st.redis ∧
        (process_single_article cfg scraper now st task).state.stats
          = bumpDup st.stats) ∧
      (¬(ex.status = some (str "completed") ∨ ex.status = some (str "failed")) →
        (process_single_article cfg scraper now st task).scraped = true ∧
        (process_single_article cfg scraper now st task).op = some StoreOp.updated ∧
        (process_single_article cfg scraper now st task).state.db =
          (update_article st.db (resolveId task)
            (applyScrapeUpdate task
              (scrapePathData task (resolveId task) (scraper u)))).1 ∧
        (process_single_article cfg scraper now st task).state.db.length
          = st.db.length)) := by
  have hrs := should_scrape_true_redis cfg now st.redis st.db u
    (task.url_hash.getD []) false hdec
  simp only [process_single_article, hu]
  rw [if_neg hne]
  simp only [hdec, if_true]
  constructor
  · intro hget
    simp only [hget]
    refine ⟨?_, ?_, ?_⟩ <;>
      (split <;> first
        | rfl
        | (split <;> rfl))
  · intro ex hget
    simp only [hget]
    constructor
    · intro hterm
      rw [if_pos hterm]
      exact ⟨rfl, rfl, rfl, rfl, hrs, rfl⟩
    · intro hterm
      rw [if_neg hterm]
      refine ⟨?_, ?_, ?_, ?_⟩
      · split <;> try split
        all_goals rfl
      · split <;> try split
        all_goals rfl
      · split <;> try split
        all_goals rfl
      · split <;> try split
        all_goals exact length_updateFirst _ _ st.db

/-- C1 counterexample: a duplicate-outcome task (cache says scrape, stored
record already terminal) increments `processed` and `duplicates` but neither
`successful` nor `failed`, contradicting the claim that every outcome
increments exactly one of them. -/
theorem process_duplicate_skips_success_failed :
    (process_single_article cfg6 scraperNop 0 stC1 taskC1).state.stats.processed = 1 ∧
    (process_single_article cfg6 scraperNop 0 stC1 taskC1).state.stats.successful = 0 ∧
    (process_single_article cfg6 scraperNop 0 stC1 taskC1).state.stats.failed = 0 ∧
    (process_single_article cfg6 scraperNop 0 stC1 taskC1).state.stats.duplicates = 1 := by
  decide

/-- C1 (amended): every processed task with a URL increments `processed` by
exactly 1; the success, cached-skip and failure outcomes additionally
increment exactly one of `successful`/`failed` and leave `duplicates` alone,
while the duplicate outcome increments only `duplicates`, leaving both
`successful` and `failed` unchanged. -/
theorem process_stats_delta (cfg : CacheConfig) (scraper : Str → ScrapeResult)
    (now : Nat) (st : PipelineState) (task : Task) (u : Str)
    (hu : task.url = some u) (hne : u ≠ []) :
    (process_single_article cfg scraper now st task).state.stats.processed
        = st.stats.processed + 1 ∧
    (((process_single_article cfg scraper now st task).state.stats.successful +
        (process_single_article cfg scraper now st task).state.stats.failed
        = st.stats.successful + st.stats.failed + 1 ∧
      (process_single_article cfg scraper now st task).state.stats.duplicates
        = st.stats.duplicates) ∨
     ((process_single_article cfg scraper now st task).state.stats.successful
        = st.stats.successful ∧
      (process_single_article cfg scraper now st task).state.stats.failed
        = st.stats.failed ∧
      (process_single_article cfg scraper now st task).state.stats.duplicates
        = st.stats.duplicates + 1)) := by
  simp only [process_single_article, hu]
  rw [if_neg hne]
  split
  · split
    · split
      · exact ⟨rfl, Or.inr ⟨rfl, rfl, rfl⟩⟩
      · split
        · split
          · refine ⟨rfl, Or.inl ⟨?_, rfl⟩⟩
            simp only [bumpSucc]
            omega
          · refine ⟨rfl, Or.inl ⟨?_, rfl⟩⟩
            simp only [bumpFail]
            omega
        · refine ⟨rfl, Or.inl ⟨?_, rfl⟩⟩
          simp only [bumpFail]
          omega
    · split
      · split
        · refine ⟨rfl, Or.inl ⟨?_, rfl⟩⟩
          simp only [bumpSucc]
          omega
        · refine ⟨rfl, Or.inl ⟨?_, rfl⟩⟩
          simp only [bumpFail]
          omega
      · refine ⟨rfl, Or.inl ⟨?_, rfl⟩⟩
        simp only [bumpFail]
        omega
  · split
    · refine ⟨rfl, Or.inl ⟨?_, rfl⟩⟩
      simp only [bumpCached]
      omega
    · refine ⟨rfl, Or.inl ⟨?_, rfl⟩⟩
      simp only [bumpCached]
      omega

theorem process_stats_delta_witness :
    (process_single_article cfg6 scraperNop 0 stC1 taskC1).state.stats.processed
        = stC1.stats.processed + 1 :=
  (process_stats_delta cfg6 scraperNop 0 stC1 taskC1 (str "u") rfl (by decide)).1

/-- C2 counterexample: a stored record with terminal status `failed` whose
fingerprint hits the durable cache takes the cache-hit path, which sets its
status to `completed` — the terminal record's status is NOT left unchanged
(it moves from `failed` to `completed`), though no re-scrape happens. -/
theorem process_cache_hit_flips_failed_record :
    ((get_article stC2.db (str "a1")).map (fun a => a.status))
        = some (some (str "failed")) ∧
    ((get_article (process_single_article cfg6 scraperNop 0 stC2 taskC2).state.db
        (str "a1")).map (fun a => a.status)) = some (some (str "completed")) ∧
    (process_single_article cfg6 scraperNop 0 stC2 taskC2).scraped = false := by
  decide

/-- C2 (amended): a task for a record whose status is terminal (`completed`
or `failed`) is never re-scraped without force; on the scrape-decision path
the record is left untouched, but on the cache-hit path the record's status
is unconditionally set to `completed`, so a `failed` record's status can move
to `completed` rather than being left unchanged. -/
theorem process_terminal_record (cfg : CacheConfig) (scraper : Str → ScrapeResult)
    (now : Nat) (st : PipelineState) (task : Task) (u : Str) (ex : ArticleData)
    (hu : task.url = some u) (hne : u ≠ [])
    (hex : get_article st.db (resolveId task) = some ex)
    (hterm : ex.status = some (str "completed") ∨ ex.status = some (str "failed")) :
    (process_single_article cfg scraper now st task).scraped = false ∧
    ((should_scrape cfg now st.redis st.db u
        (task.url_hash.getD [])).1.should_scrape = true →
      (process_single_article cfg scraper now st task).state.db = st.db) ∧
    ((should_scrape cfg now st.redis st.db u
        (task.url_hash.getD [])).1.should_scrape = false →
      (process_single_article cfg scraper now st task).state.db =
        updateFirst (resolveId task)
          (fun old => { old with status := some (str "completed") }) st.db) := by
  simp only [process_single_article, hu]
  rw [if_neg hne]
  cases hdec : (should_scrape cfg now st.redis st.db u
      (task.url_hash.getD [])).1.should_scrape with
  | true =>
    simp only [if_true]
    simp only [hex]
    rw [if_pos hterm]
    exact ⟨rfl, fun _ => rfl, fun h => absurd h (by decide)⟩
  | false =>
    simp only [if_false]
    simp only [hex]
    exact ⟨rfl, fun h => absurd h (by decide), fun _ => rfl⟩

theorem process_terminal_record_witness :
    (process_single_article cfg6 scraperNop 0 stC2 taskC2).scraped = false :=
  (process_terminal_record cfg6 scraperNop 0 stC2 taskC2 (str "u") recC2 rfl
      (by decide) (by decide) (Or.inr rfl)).1

theorem consumer_persistence_decision_witness :
    (process_single_article cfg6 scraperNop 0 ⟨[], [], ⟨0, 0, 0, 0, 0⟩⟩ taskC1).scraped
        = true :=
  ((consumer_persistence_decision cfg6 scraperNop 0 ⟨[], [], ⟨0, 0, 0, 0, 0⟩⟩ taskC1
      (str "u") rfl (by decide) (by decide)).1 rfl).1

/-- C10 counterexample: `normalize_url` is not idempotent.  For
`https://e.com/a/;b///;p` the first pass parses path `/a/;b///` with params
`p`, strips the trailing slashes and rebuilds `https://e.com/a/;b;p`; the
second pass re-splits the params at the earlier semicolon (path `/a/`, params
`b;p`) and rebuilds `https://e.com/a;b;p`, a different string. -/
theorem normalize_url_not_idempotent :
    normalize_url (normalize_url (str "https://e.com/a/;b///;p")) ≠
      normalize_url (str "https://e.com/a/;b///;p") := by decide

/-- `Char.ofNat` on a small scalar value round-trips through `toNat`. -/
theorem toNat_ofNat_small (n : Nat) (h : n < 55296) : (Char.ofNat n).toNat = n := by
  have hv : n.isValidChar := Or.inl h
  rw [Char.ofNat, dif_pos hv]
  rfl

theorem lowerChar_toNat_of_upper {c : Char} (h1 : 65 ≤ c.toNat) (h2 : c.toNat ≤ 90) :
    (lowerChar c).toNat = c.toNat + 32 := by
  unfold lowerChar
  rw [if_pos ⟨h1, h2⟩, toNat_ofNat_small _ (by omega)]

theorem lowerChar_eq_self {c : Char} (h : ¬(65 ≤ c.toNat ∧ c.toNat ≤ 90)) :
    lowerChar c = c := by
  unfold lowerChar
  rw [if_neg h]

/-- Lower-casing reflects equality with any character outside both the A-Z
and a-z ranges (such as the URL delimiters). -/
theorem lowerChar_eq_iff {c d : Char} (hd1 : d.toNat < 97 ∨ 122 < d.toNat)
    (hd2 : ¬(65 ≤ d.toNat ∧ d.toNat ≤ 90)) :
    lowerChar c = d ↔ c = d := by
  by_cases h : 65 ≤ c.toNat ∧ c.toNat ≤ 90
  · constructor
    · intro he
      have ht := lowerChar_toNat_of_upper h.1 h.2
      rw [he] at ht
      exfalso
      omega
    · intro he
      subst he
      exact absurd h hd2
  · rw [lowerChar_eq_self h]

theorem lowerChar_idem (c : Char) : lowerChar (lowerChar c) = lowerChar c := by
  by_cases h : 65 ≤ c.toNat ∧ c.toNat ≤ 90
  · have ht := lowerChar_toNat_of_upper h.1 h.2
    exact lowerChar_eq_self (by omega)
  · rw [lowerChar_eq_self h, lowerChar_eq_self h]

theorem lower_idem (s : Str) : lower (lower s) = lower s := by
  unfold lower
  rw [List.map_map]
  exact List.map_congr_left (fun c _ => lowerChar_idem c)

theorem lower_eq_nil_iff {s : Str} : lower s = [] ↔ s = [] := by
  unfold lower
  exact List.map_eq_nil_iff

theorem pyAlpha_lowerChar {c : Char} (h : pyAlpha c = true) :
    pyAlpha (lowerChar c) = true := by
  by_cases hr : 65 ≤ c.toNat ∧ c.toNat ≤ 90
  · have ht := lowerChar_toNat_of_upper hr.1 hr.2
    unfold pyAlpha
    simp only [Bool.or_eq_true, Bool.and_eq_true, decide_eq_true_eq]
    omega
  · rw [lowerChar_eq_self hr]
    exact h

theorem pyAlpha_imp_schemeChar {c : Char} (h : pyAlpha c = true) :
    schemeChar c = true := by
  unfold schemeChar
  rw [h]
  rfl

theorem schemeChar_lowerChar {c : Char} (h : schemeChar c = true) :
    schemeChar (lowerChar c) = true := by
  by_cases hr : 65 ≤ c.toNat ∧ c.toNat ≤ 90
  · refine pyAlpha_imp_schemeChar ?_
    have ht := lowerChar_toNat_of_upper hr.1 hr.2
    unfold pyAlpha
    simp only [Bool.or_eq_true, Bool.and_eq_true, decide_eq_true_eq]
    omega
  · rw [lowerChar_eq_self hr]
    exact h

theorem validSchemeName_lower {s : Str} (h : validSchemeName s = true) :
    validSchemeName (lower s) = true := by
  cases s with
  | nil => exact absurd h (by simp [validSchemeName])
  | cons c cs =>
    unfold validSchemeName at h ⊢
    unfold lower
    simp only [List.map_cons, Bool.and_eq_true] at h ⊢
    refine ⟨pyAlpha_lowerChar h.1, ?_⟩
    rw [List.all_eq_true] at h ⊢
    intro x hx
    rcases List.mem_map.mp hx with ⟨y, hy, rfl⟩
    exact schemeChar_lowerChar (h.2 y hy)

/-- `validSchemeName` fails as soon as one character is not a scheme char. -/
theorem validSchemeName_false_of_bad_mem {l : Str} {c : Char} (hc : c ∈ l)
    (hbad : schemeChar c = false) : validSchemeName l = false := by
  cases l with
  | nil => rfl
  | cons a t =>
    simp only [validSchemeName]
    rcases List.mem_cons.mp hc with rfl | hct
    · have ha : pyAlpha c = false := by
        cases hpa : pyAlpha c with
        | false => rfl
        | true => rw [pyAlpha_imp_schemeChar hpa] at hbad; exact absurd hbad (by simp)
      rw [ha, Bool.false_and]
    · have ht : t.all schemeChar = false := by
        cases hta : t.all schemeChar with
        | false => rfl
        | true =>
          rw [List.all_eq_true] at hta
          rw [hta c hct] at hbad
          exact absurd hbad (by simp)
      rw [ht, Bool.and_false]

/-- `takeWhile` over an append stops inside the left part when some element
there fails the predicate. -/
theorem takeWhile_append_left {p : Char → Bool} :
    ∀ (l₁ l₂ : Str) (c : Char), c ∈ l₁ → p c = false →
      (l₁ ++ l₂).takeWhile p = l₁.takeWhile p := by
  intro l₁
  induction l₁ with
  | nil => intro l₂ c hc _; exact absurd hc (List.not_mem_nil c)
  | cons a t ih =>
    intro l₂ c hc hpc
    by_cases ha : p a = true
    · rw [List.cons_append, List.takeWhile_cons_of_pos ha,
        List.takeWhile_cons_of_pos ha]
      rcases List.mem_cons.mp hc with rfl | hct
      · rw [ha] at hpc; exact absurd hpc (by simp)
      · rw [ih l₂ c hct hpc]
    · rw [List.cons_append, List.takeWhile_cons_of_neg ha,
        List.takeWhile_cons_of_neg ha]

/-- The first element surviving `dropWhile` fails the predicate. -/
theorem dropWhile_head_false (p : Char → Bool) {l : List Char} {c : Char}
    {t : List Char} (h : l.dropWhile p = c :: t) : p c = false := by
  have hm := List.head?_dropWhile_not p l
  rw [h] at hm
  exact hm

/-- The input of `rstripSlash` is its output plus trailing slashes. -/
theorem rstripSlash_decomp (l : Str) :
    ∃ m, l = rstripSlash l ++ List.replicate m '/' := by
  refine ⟨(l.reverse.takeWhile (fun c => c == '/')).length, ?_⟩
  unfold rstripSlash
  have hrep : l.reverse.takeWhile (fun c => c == '/') =
      List.replicate (l.reverse.takeWhile (fun c => c == '/')).length '/' := by
    refine List.eq_replicate_of_mem ?_
    intro b hb
    have := List.mem_takeWhile_imp hb
    simpa using this
  conv_lhs =>
    rw [← List.reverse_reverse l,
      ← List.takeWhile_append_dropWhile (fun c => c == '/') l.reverse]
  rw [List.reverse_append]
  congr 1
  rw [hrep, List.reverse_replicate, List.length_replicate]

/-- A string not ending in `/` is fixed by `rstripSlash`. -/
theorem rstripSlash_eq_self {t : Str} {c : Char} (hc : (c == '/') = false) :
    rstripSlash (t ++ [c]) = t ++ [c] := by
  unfold rstripSlash
  rw [List.reverse_append]
  simp only [List.reverse_cons, List.reverse_nil, List.nil_append, List.cons_append,
    List.nil_append]
  rw [List.dropWhile_cons_of_neg (by rw [hc]; simp)]
  rw [List.reverse_cons, List.reverse_reverse]

/-- `rstripSlash` output either is empty or does not end in `/`. -/
theorem rstripSlash_last (l : Str) :
    rstripSlash l = [] ∨
    ∃ t c, rstripSlash l = t ++ [c] ∧ (c == '/') = false := by
  unfold rstripSlash
  cases hd : l.reverse.dropWhile (fun c => c == '/') with
  | nil => exact Or.inl rfl
  | cons c t =>
    refine Or.inr ⟨t.reverse, c, ?_, dropWhile_head_false (fun c => c == '/') hd⟩
    rw [List.reverse_cons]

theorem takeWhile_eq_self_of_all {p : Char → Bool} {l : Str}
    (h : ∀ c ∈ l, p c = true) : l.takeWhile p = l := by
  have hd : l.dropWhile p = [] := List.dropWhile_eq_nil_iff.mpr h
  have happ := List.takeWhile_append_dropWhile p l
  rw [hd, List.append_nil] at happ
  exact happ

/-- `splitScheme` on a well-formed `scheme : rest` input. -/
theorem splitScheme_build (s r : Str) (hnc : ∀ c ∈ s, (c != ':') = true)
    (hv : validSchemeName s = true) : splitScheme (s ++ ':' :: r) = (lower s, r) := by
  have ht : (s ++ ':' :: r).takeWhile (fun c => c != ':') = s := by
    rw [List.takeWhile_append_of_pos hnc, List.takeWhile_cons_of_neg (by simp),
      List.append_nil]
  have hd : (s ++ ':' :: r).dropWhile (fun c => c != ':') = ':' :: r := by
    rw [List.dropWhile_append_of_pos hnc, List.dropWhile_cons_of_neg (by simp)]
  simp only [splitScheme, ht, hd, hv, if_true]

theorem splitScheme_no_colon {l : Str} (h : ∀ c ∈ l, (c != ':') = true) :
    splitScheme l = ([], l) := by
  have hd : l.dropWhile (fun c => c != ':') = [] := List.dropWhile_eq_nil_iff.mpr h
  simp only [splitScheme, hd]

theorem splitScheme_invalid {l : Str}
    (h : validSchemeName (l.takeWhile (fun c => c != ':')) = false) :
    splitScheme l = ([], l) := by
  cases hd : l.dropWhile (fun c => c != ':') with
  | nil => simp only [splitScheme, hd]
  | cons a t => simp [splitScheme, hd, h]

/-- What `splitScheme` can do: nothing, or split off a valid scheme. -/
theorem splitScheme_cases (u : Str) :
    splitScheme u = ([], u) ∨
    ∃ pre rest, u = pre ++ ':' :: rest ∧ validSchemeName pre = true ∧
      (∀ c ∈ pre, (c != ':') = true) ∧ splitScheme u = (lower pre, rest) := by
  cases hd : u.dropWhile (fun c => c != ':') with
  | nil => exact Or.inl (by simp only [splitScheme, hd])
  | cons a t =>
    have ha : a = ':' := by
      have hb := dropWhile_head_false (fun c => c != ':') hd
      simpa using hb
    subst ha
    cases hv : validSchemeName (u.takeWhile (fun c => c != ':')) with
    | false => exact Or.inl (splitScheme_invalid hv)
    | true =>
      refine Or.inr ⟨u.takeWhile (fun c => c != ':'), t, ?_, hv,
        fun c hc => by have hx := List.mem_takeWhile_imp hc; exact hx, ?_⟩
      · conv_lhs => rw [← List.takeWhile_append_dropWhile (fun c => c != ':') u]
        rw [hd]
      · simp only [splitScheme, hd, hv, if_true]

/-- `splitScheme u = ([], u)` in the presence of a colon means the prefix
before the first colon is not a valid scheme name. -/
theorem splitScheme_self_invalid {u : Str} (h : splitScheme u = ([], u))
    (hc : ':' ∈ u) : validSchemeName (u.takeWhile (fun c => c != ':')) = false := by
  rcases splitScheme_cases u with h0 | ⟨pre, rest, hu, hv, hpre, heq⟩
  · cases hd : u.dropWhile (fun c => c != ':') with
    | nil =>
      exfalso
      have hall := List.dropWhile_eq_nil_iff.mp hd
      have := hall ':' hc
      simp at this
    | cons a t =>
      cases hv : validSchemeName (u.takeWhile (fun c => c != ':')) with
      | false => rfl
      | true =>
        exfalso
        have hb := splitScheme_build (u.takeWhile (fun c => c != ':')) t
          (fun c hcm => by have hx := List.mem_takeWhile_imp hcm; exact hx) hv
        have ha : a = ':' := by
          have hbf := dropWhile_head_false (fun c => c != ':') hd
          simpa using hbf
        subst ha
        have hu2 : u.takeWhile (fun c => c != ':') ++ ':' :: t = u := by
          conv_rhs => rw [← List.takeWhile_append_dropWhile (fun c => c != ':') u]
          rw [hd]
        rw [hu2] at hb
        rw [hb] at h
        have hl := congrArg Prod.fst h
        simp only at hl
        rw [lower_eq_nil_iff] at hl
        rw [hl] at hv
        exact absurd hv (by simp [validSchemeName])
  · exfalso
    rw [heq] at h
    have hl := congrArg Prod.fst h
    simp only at hl
    rw [lower_eq_nil_iff] at hl
    rw [hl] at hv
    exact absurd hv (by simp [validSchemeName])

/-- `splitNetloc` on a built `//netloc rest` where the rest is empty or
starts with a delimiter. -/
theorem splitNetloc_build {nl rest : Str} (hn : ∀ c ∈ nl, netlocDelim c = false)
    (hr : rest = [] ∨ ∃ c t, rest = c :: t ∧ netlocDelim c = true) :
    splitNetloc ('/' :: '/' :: (nl ++ rest)) = (nl, rest) := by
  have h1 : ∀ c ∈ nl, (!netlocDelim c) = true := fun c hc => by rw [hn c hc]; rfl
  have ht : (nl ++ rest).takeWhile (fun c => !netlocDelim c) = nl := by
    rcases hr with rfl | ⟨c, t, rfl, hc⟩
    · rw [List.append_nil]
      exact takeWhile_eq_self_of_all h1
    · rw [List.takeWhile_append_of_pos h1,
        List.takeWhile_cons_of_neg (by rw [hc]; simp), List.append_nil]
  have hd : (nl ++ rest).dropWhile (fun c => !netlocDelim c) = rest := by
    rcases hr with rfl | ⟨c, t, rfl, hc⟩
    · rw [List.append_nil]
      exact List.dropWhile_eq_nil_iff.mpr h1
    · rw [List.dropWhile_append_of_pos h1,
        List.dropWhile_cons_of_neg (by rw [hc]; simp)]
  show ((nl ++ rest).takeWhile (fun c => !netlocDelim c),
      (nl ++ rest).dropWhile (fun c => !netlocDelim c)) = (nl, rest)
  rw [ht, hd]

/-- `splitNetloc` is the identity when the input has no `//` prefix. -/
theorem splitNetloc_eq_self {l : Str} (h : l.take 2 ≠ ['/', '/']) :
    splitNetloc l = ([], l) := by
  unfold splitNetloc
  split
  · exfalso
    apply h
    rfl
  · rfl

theorem splitOnCharFirst_all {sep : Char} {l : Str}
    (h : ∀ c ∈ l, (c != sep) = true) : splitOnCharFirst sep l = (l, []) := by
  unfold splitOnCharFirst
  rw [takeWhile_eq_self_of_all h, List.dropWhile_eq_nil_iff.mpr h]
  rfl

theorem splitOnCharFirst_app {sep : Char} {l r : Str}
    (h : ∀ c ∈ l, (c != sep) = true) :
    splitOnCharFirst sep (l ++ sep :: r) = (l, r) := by
  unfold splitOnCharFirst
  rw [List.takeWhile_append_of_pos h, List.dropWhile_append_of_pos h,
    List.takeWhile_cons_of_neg (by simp), List.dropWhile_cons_of_neg (by simp),
    List.append_nil]
  rfl

theorem contains_eq_decide_mem (l : Str) (a : Char) :
    l.contains a = decide (a ∈ l) := by
  rw [List.contains_eq_any_beq]
  cases hm : decide (a ∈ l) with
  | true =>
    have hmem : a ∈ l := of_decide_eq_true hm
    exact List.any_eq_true.mpr ⟨a, hmem, by simp⟩
  | false =>
    have hnm : a ∉ l := of_decide_eq_false hm
    rw [List.any_eq_false]
    intro x hx hbeq
    have hax : a = x := by simpa using hbeq
    subst hax
    exact hnm hx

/-- Invert one successful `urlsplit`. -/
theorem urlsplit_inv (u : Str) (r : SplitResult) (h : urlsplit u = some r) :
    ∃ x1 x2,
      splitScheme u = (r.scheme, x1) ∧
      splitNetloc x1 = (r.netloc, x2) ∧
      bracketMismatch r.netloc = false ∧
      r.path = (x2.takeWhile (fun c => c != '#')).takeWhile (fun c => c != '?') ∧
      r.query = ((x2.takeWhile (fun c => c != '#')).dropWhile (fun c => c != '?')).drop 1 ∧
      r.fragment = (x2.dropWhile (fun c => c != '#')).drop 1 := by
  rcases hss : splitScheme u with ⟨s0, x1⟩
  rcases hsn : splitNetloc x1 with ⟨n0, x2⟩
  simp only [urlsplit, hss, hsn, splitOnCharFirst] at h
  cases hbm : bracketMismatch n0 with
  | true => rw [hbm] at h; simp at h
  | false =>
    rw [hbm] at h
    simp only [Bool.false_eq_true, if_false] at h
    injection h with h2
    subst h2
    exact ⟨x1, x2, rfl, hsn, hbm, rfl, rfl, rfl⟩

/-- Invert `splitNetloc`. -/
theorem splitNetloc_inv (l n rest : Str) (h : splitNetloc l = (n, rest)) :
    (n = [] ∧ rest = l) ∨
    (∃ r0, l = '/' :: '/' :: r0 ∧ n = r0.takeWhile (fun c => !netlocDelim c) ∧
      rest = r0.dropWhile (fun c => !netlocDelim c)) := by
  unfold splitNetloc at h
  split at h
  · rename_i r0
    rw [Prod.mk.injEq] at h
    exact Or.inr ⟨r0, rfl, h.1.symm, h.2.symm⟩
  · rw [Prod.mk.injEq] at h
    exact Or.inl ⟨h.1.symm, h.2.symm⟩

/-- A parse with a semicolon-free path keeps the whole split path and has no
params. -/
theorem urlparse_semifree (u : Str) (pr : ParseResult) (hp : urlparse u = some pr)
    (hsf : pathSemiFree u = true) :
    urlsplit u = some ⟨pr.scheme, pr.netloc, pr.path, pr.query, pr.fragment⟩ ∧
    pr.params = [] ∧ pr.path.contains ';' = false := by
  unfold urlparse at hp
  unfold pathSemiFree at hsf
  cases hs : urlsplit u with
  | none => rw [hs] at hp; exact absurd hp (by simp)
  | some r =>
    simp only [hs] at hp hsf
    have hc : r.path.contains ';' = false := by
      cases hcc : r.path.contains ';' with
      | false => rfl
      | true => rw [hcc] at hsf; exact absurd hsf (by decide)
    rw [hc] at hp
    simp only [Bool.false_eq_true, if_false] at hp
    injection hp with hp2
    subst hp2
    exact ⟨rfl, rfl, hc⟩

theorem take2_append_ne {p qp : Str} (hp : p ≠ []) (h2 : p.take 2 ≠ ['/', '/'])
    (hq : qp = [] ∨ ∃ t, qp = '?' :: t) :
    (p ++ qp).take 2 ≠ ['/', '/'] := by
  cases p with
  | nil => exact absurd rfl hp
  | cons c1 t1 =>
    cases t1 with
    | nil =>
      rcases hq with rfl | ⟨t, rfl⟩
      · intro hco
        exact h2 (by simpa using hco)
      · intro hco
        simp at hco
    | cons c2 t2 =>
      intro hco
      apply h2
      simpa using hco

theorem urlunparse_no_params (s n p q f : Str) :
    urlunparse s n p [] q f = urlunsplit s n p q f := by
  unfold urlunparse
  rw [if_neg (show ¬(([] : Str) ≠ []) from fun hco => hco rfl)]

theorem urlunsplit_branch_true (s n p q : Str)
    (hbr : n ≠ [] ∨ (p ≠ [] ∧ p.take 2 = ['/', '/']))
    (hpp : ¬(p ≠ [] ∧ p.take 1 ≠ ['/'])) :
    urlunsplit s n p q [] =
      (if s = [] then '/' :: '/' :: (n ++ (p ++ (if q = [] then [] else '?' :: q)))
       else s ++ ':' ::
         ('/' :: '/' :: (n ++ (p ++ (if q = [] then [] else '?' :: q))))) := by
  unfold urlunsplit
  rw [if_pos hbr, if_neg hpp]
  rw [if_neg (show ¬(([] : Str) ≠ []) from fun hco => hco rfl)]
  by_cases hq : q = []
  · rw [if_neg (fun hco => hco hq), if_pos hq]
    by_cases hsE : s = []
    · rw [if_neg (fun hco => hco hsE), if_pos hsE]
      simp
    · rw [if_pos hsE, if_neg hsE]
      simp
  · rw [if_pos hq, if_neg hq]
    by_cases hsE : s = []
    · rw [if_neg (fun hco => hco hsE), if_pos hsE]
      simp [List.append_assoc]
    · rw [if_pos hsE, if_neg hsE]
      simp [List.append_assoc]

theorem urlunsplit_branch_false (s n p q : Str)
    (hbr : ¬(n ≠ [] ∨ (p ≠ [] ∧ p.take 2 = ['/', '/']))) :
    urlunsplit s n p q [] =
      (if s = [] then p ++ (if q = [] then [] else '?' :: q)
       else s ++ ':' :: (p ++ (if q = [] then [] else '?' :: q))) := by
  unfold urlunsplit
  rw [if_neg hbr]
  rw [if_neg (show ¬(([] : Str) ≠ []) from fun hco => hco rfl)]
  by_cases hq : q = []
  · rw [if_neg (fun hco => hco hq), if_pos hq]
    by_cases hsE : s = []
    · rw [if_neg (fun hco => hco hsE), if_pos hsE]
      simp
    · rw [if_pos hsE, if_neg hsE]
      simp
  · rw [if_pos hq, if_neg hq]
    by_cases hsE : s = []
    · rw [if_neg (fun hco => hco hsE), if_pos hsE]
    · rw [if_pos hsE, if_neg hsE]
      simp [List.append_assoc]

/-- Re-splitting the URL built from already-normalized components recovers
exactly those components. -/
theorem urlsplit_of_build (s n p q : Str)
    (hs : s = [] ∨ (validSchemeName s = true ∧ (∀ c ∈ s, (c != ':') = true) ∧
      lower s = s))
    (hn : ∀ c ∈ n, netlocDelim c = false)
    (hbm : bracketMismatch n = false)
    (hpne : p ≠ [])
    (hph : ∀ c ∈ p, (c != '#') = true)
    (hpq : ∀ c ∈ p, (c != '?') = true)
    (hqh : ∀ c ∈ q, (c != '#') = true)
    (hslash : n ≠ [] → p.head? = some '/')
    (hsch : s = [] → splitScheme (p ++ (if q = [] then [] else '?' :: q)) =
      ([], p ++ (if q = [] then [] else '?' :: q))) :
    urlsplit (urlunparse s n p [] q []) = some ⟨s, n, p, q, []⟩ := by
  have hbodyh : ∀ c ∈ p ++ (if q = [] then [] else '?' :: q), (c != '#') = true := by
    intro c hc
    rcases List.mem_append.mp hc with hc | hc
    · exact hph c hc
    · by_cases hq : q = []
      · rw [if_pos hq] at hc
        simp at hc
      · rw [if_neg hq] at hc
        rcases List.mem_cons.mp hc with rfl | hc2
        · decide
        · exact hqh c hc2
  have hfrag : splitOnCharFirst '#' (p ++ (if q = [] then [] else '?' :: q))
      = (p ++ (if q = [] then [] else '?' :: q), []) := splitOnCharFirst_all hbodyh
  have hquery : splitOnCharFirst '?' (p ++ (if q = [] then [] else '?' :: q))
      = (p, q) := by
    by_cases hq : q = []
    · subst hq
      rw [if_pos rfl, List.append_nil]
      exact splitOnCharFirst_all hpq
    · rw [if_neg hq]
      exact splitOnCharFirst_app hpq
  have hqalt : (if q = [] then ([] : Str) else '?' :: q) = [] ∨
      ∃ t, (if q = [] then ([] : Str) else '?' :: q) = '?' :: t := by
    by_cases hq : q = []
    · rw [if_pos hq]
      exact Or.inl rfl
    · rw [if_neg hq]
      exact Or.inr ⟨q, rfl⟩
  by_cases hbr : n ≠ [] ∨ (p ≠ [] ∧ p.take 2 = ['/', '/'])
  · -- the builder emits the // netloc section; the path starts with /
    have hh : p.head? = some '/' := by
      rcases hbr with hn1 | ⟨-, h2⟩
      · exact hslash hn1
      · cases p with
        | nil => simp at h2
        | cons c t =>
          have hc : c = '/' := by
            have h3 := congrArg (fun l => l.head?) h2
            simpa using h3
          rw [hc]
          rfl
    obtain ⟨pt, rfl⟩ : ∃ pt, p = '/' :: pt := by
      cases p with
      | nil => simp at hh
      | cons c t => exact ⟨t, by injection hh with hh2; rw [hh2]⟩
    have hppif : ¬(('/' :: pt : Str) ≠ [] ∧ ('/' :: pt : Str).take 1 ≠ ['/']) := by
      intro hco
      exact hco.2 rfl
    have hbuild : urlunparse s n ('/' :: pt) [] q [] =
        (if s = [] then
          '/' :: '/' :: (n ++ ('/' :: pt ++ (if q = [] then [] else '?' :: q)))
        else s ++ ':' ::
          ('/' :: '/' :: (n ++ ('/' :: pt ++ (if q = [] then [] else '?' :: q))))) := by
      rw [urlunparse_no_params]
      exact urlunsplit_branch_true s n ('/' :: pt) q hbr hppif
    have hnet : splitNetloc
        ('/' :: '/' :: (n ++ ('/' :: pt ++ (if q = [] then [] else '?' :: q))))
        = (n, '/' :: pt ++ (if q = [] then [] else '?' :: q)) :=
      splitNetloc_build hn (Or.inr ⟨'/', pt ++ _, rfl, by decide⟩)
    rcases hs with hsE | ⟨hv, hnc, hlo⟩
    · subst hsE
      rw [hbuild, if_pos rfl]
      have hsch2 : splitScheme
          ('/' :: '/' :: (n ++ ('/' :: pt ++ (if q = [] then [] else '?' :: q))))
          = ([], '/' :: '/' :: (n ++ ('/' :: pt ++ (if q = [] then [] else '?' :: q)))) := by
        apply splitScheme_invalid
        rw [List.takeWhile_cons_of_pos (by decide)]
        exact validSchemeName_false_of_bad_mem (List.mem_cons_self _ _) (by decide)
      simp only [urlsplit, hsch2, hnet, hbm, Bool.false_eq_true, if_false,
        splitOnCharFirst] at hfrag hquery ⊢
      rw [Prod.mk.injEq] at hfrag hquery
      rw [hfrag.1, hquery.1, hfrag.2, hquery.2]
    · have hsne : s ≠ [] := by
        intro hco
        rw [hco] at hv
        exact absurd hv (by simp [validSchemeName])
      rw [hbuild, if_neg hsne]
      have hsch2 := splitScheme_build s
        ('/' :: '/' :: (n ++ ('/' :: pt ++ (if q = [] then [] else '?' :: q)))) hnc hv
      rw [hlo] at hsch2
      simp only [urlsplit, hsch2, hnet, hbm, Bool.false_eq_true, if_false,
        splitOnCharFirst] at hfrag hquery ⊢
      rw [Prod.mk.injEq] at hfrag hquery
      rw [hfrag.1, hquery.1, hfrag.2, hquery.2]
  · -- no netloc section: the body is just path plus query
    have hnE : n = [] := by
      by_cases hco : n = []
      · exact hco
      · exact absurd (Or.inl hco) hbr
    have h2 : p.take 2 ≠ ['/', '/'] := by
      intro hco
      exact hbr (Or.inr ⟨hpne, hco⟩)
    subst hnE
    have hbuild : urlunparse s [] p [] q [] =
        (if s = [] then p ++ (if q = [] then [] else '?' :: q)
         else s ++ ':' :: (p ++ (if q = [] then [] else '?' :: q))) := by
      rw [urlunparse_no_params]
      exact urlunsplit_branch_false s [] p q hbr
    have hnet : splitNetloc (p ++ (if q = [] then [] else '?' :: q))
        = ([], p ++ (if q = [] then [] else '?' :: q)) :=
      splitNetloc_eq_self (take2_append_ne hpne h2 hqalt)
    rcases hs with hsE | ⟨hv, hnc, hlo⟩
    · subst hsE
      rw [hbuild, if_pos rfl]
      simp only [urlsplit, hsch rfl, hnet, bracketMismatch, Bool.false_eq_true,
        if_false, splitOnCharFirst] at hfrag hquery ⊢
      rw [Prod.mk.injEq] at hfrag hquery
      rw [hfrag.1, hquery.1, hfrag.2, hquery.2]
      simp
    · have hsne : s ≠ [] := by
        intro hco
        rw [hco] at hv
        exact absurd hv (by simp [validSchemeName])
      rw [hbuild, if_neg hsne]
      have hsch2 := splitScheme_build s
        (p ++ (if q = [] then [] else '?' :: q)) hnc hv
      rw [hlo] at hsch2
      simp only [urlsplit, hsch2, hnet, bracketMismatch, Bool.false_eq_true,
        if_false, splitOnCharFirst] at hfrag hquery ⊢
      rw [Prod.mk.injEq] at hfrag hquery
      rw [hfrag.1, hquery.1, hfrag.2, hquery.2]
      simp

theorem beq_false_of_toNat_ne {c d : Char} (h : c.toNat ≠ d.toNat) :
    (c == d) = false := by
  rw [beq_eq_false_iff_ne]
  intro hco
  exact h (congrArg Char.toNat hco)

/-- Lower-casing never produces a netloc delimiter from a non-delimiter. -/
theorem netlocDelim_lowerChar {c : Char} (h : netlocDelim c = false) :
    netlocDelim (lowerChar c) = false := by
  by_cases hu : 65 ≤ c.toNat ∧ c.toNat ≤ 90
  · have hv : (lowerChar c).toNat = c.toNat + 32 := lowerChar_toNat_of_upper hu.1 hu.2
    have h1 : ((lowerChar c) == '/') = false :=
      beq_false_of_toNat_ne (by rw [hv, show ('/' : Char).toNat = 47 by decide]; omega)
    have h2 : ((lowerChar c) == '?') = false :=
      beq_false_of_toNat_ne (by rw [hv, show ('?' : Char).toNat = 63 by decide]; omega)
    have h3 : ((lowerChar c) == '#') = false :=
      beq_false_of_toNat_ne (by rw [hv, show ('#' : Char).toNat = 35 by decide]; omega)
    unfold netlocDelim
    rw [h1, h2, h3]
    rfl
  · rw [lowerChar_eq_self hu]
    exact h

theorem netlocDelim_lower {l : Str} (h : ∀ c ∈ l, netlocDelim c = false) :
    ∀ c ∈ lower l, netlocDelim c = false := by
  intro c hc
  obtain ⟨a, ha, rfl⟩ := List.mem_map.mp hc
  exact netlocDelim_lowerChar (h a ha)

/-- Lower-casing cannot create or destroy a character outside both letter
ranges. -/
theorem beq_lowerChar_nonletter {c d : Char}
    (hd : ¬(65 ≤ d.toNat ∧ d.toNat ≤ 90)) (hd2 : ¬(97 ≤ d.toNat ∧ d.toNat ≤ 122)) :
    (d == lowerChar c) = (d == c) := by
  by_cases hu : 65 ≤ c.toNat ∧ c.toNat ≤ 90
  · have hv : (lowerChar c).toNat = c.toNat + 32 := lowerChar_toNat_of_upper hu.1 hu.2
    rw [beq_false_of_toNat_ne (fun hco => hd2 ⟨by omega, by omega⟩),
        beq_false_of_toNat_ne (fun hco => hd ⟨by omega, by omega⟩)]
  · rw [lowerChar_eq_self hu]

theorem contains_lower {l : Str} {d : Char}
    (hd : ¬(65 ≤ d.toNat ∧ d.toNat ≤ 90)) (hd2 : ¬(97 ≤ d.toNat ∧ d.toNat ≤ 122)) :
    (lower l).contains d = l.contains d := by
  induction l with
  | nil => rfl
  | cons c t ih =>
    rw [show lower (c :: t) = lowerChar c :: lower t from rfl,
        List.contains_cons, List.contains_cons, beq_lowerChar_nonletter hd hd2, ih]

theorem bracketMismatch_lower (n : Str) :
    bracketMismatch (lower n) = bracketMismatch n := by
  unfold bracketMismatch
  rw [@contains_lower n '[' (by decide) (by decide),
      @contains_lower n ']' (by decide) (by decide)]

theorem ne_colon_lowerChar {a : Char} (h : (a != ':') = true) :
    (lowerChar a != ':') = true := by
  by_cases hu : 65 ≤ a.toNat ∧ a.toNat ≤ 90
  · have hv : (lowerChar a).toNat = a.toNat + 32 := lowerChar_toNat_of_upper hu.1 hu.2
    have hb : ((lowerChar a) == ':') = false :=
      beq_false_of_toNat_ne (by rw [hv, show (':' : Char).toNat = 58 by decide]; omega)
    simp [bne, hb]
  · rw [lowerChar_eq_self hu]
    exact h

theorem mem_of_mem_takeWhile {p : Char → Bool} {l : Str} {c : Char}
    (h : c ∈ l.takeWhile p) : c ∈ l := by
  have h2 : c ∈ l.takeWhile p ++ l.dropWhile p := List.mem_append.mpr (Or.inl h)
  rwa [List.takeWhile_append_dropWhile] at h2

theorem mem_of_mem_dropWhile {p : Char → Bool} {l : Str} {c : Char}
    (h : c ∈ l.dropWhile p) : c ∈ l := by
  have h2 : c ∈ l.takeWhile p ++ l.dropWhile p := List.mem_append.mpr (Or.inr h)
  rwa [List.takeWhile_append_dropWhile] at h2

theorem mem_of_mem_drop1 {l : Str} {c : Char} (h : c ∈ l.drop 1) : c ∈ l := by
  cases l with
  | nil => simpa using h
  | cons a t => exact List.mem_cons_of_mem a (by simpa using h)

theorem mem_rstripSlash {l : Str} {c : Char} (h : c ∈ rstripSlash l) : c ∈ l := by
  obtain ⟨m, hm⟩ := rstripSlash_decomp l
  rw [hm]
  exact List.mem_append.mpr (Or.inl h)

/-- A head surviving `takeWhile` is the head of the original list and
satisfies the predicate. -/
theorem head?_takeWhile {p : Char → Bool} {l : Str} {c : Char}
    (h : (l.takeWhile p).head? = some c) : l.head? = some c ∧ p c = true := by
  cases l with
  | nil => simp at h
  | cons a t =>
    cases hp : p a with
    | false =>
      rw [List.takeWhile_cons_of_neg (by simp [hp])] at h
      simp at h
    | true =>
      rw [List.takeWhile_cons_of_pos hp] at h
      have h2 : a = c := by simpa using h
      subst h2
      exact ⟨rfl, hp⟩

/-- A nonempty `rstripSlash` output starts where its input starts. -/
theorem head?_rstripSlash {l : Str} (h : rstripSlash l ≠ []) :
    l.head? = (rstripSlash l).head? := by
  obtain ⟨m, hm⟩ := rstripSlash_decomp l
  conv_lhs => rw [hm]
  cases hrs : rstripSlash l with
  | nil => exact absurd hrs h
  | cons a t => rfl

/-- Normalizing a URL built from already-normalized components is the
identity. -/
theorem normalize_url_of_build (s n p q : Str)
    (hs : s = [] ∨ (validSchemeName s = true ∧ (∀ c ∈ s, (c != ':') = true) ∧
      lower s = s))
    (hn : ∀ c ∈ n, netlocDelim c = false)
    (hbm : bracketMismatch n = false)
    (hpne : p ≠ [])
    (hph : ∀ c ∈ p, (c != '#') = true)
    (hpq : ∀ c ∈ p, (c != '?') = true)
    (hqh : ∀ c ∈ q, (c != '#') = true)
    (hslash : n ≠ [] → p.head? = some '/')
    (hsch : s = [] → splitScheme (p ++ (if q = [] then [] else '?' :: q)) =
      ([], p ++ (if q = [] then [] else '?' :: q)))
    (hsem : p.contains ';' = false)
    (hshttp : s ≠ str "http")
    (hlown : lower n = n)
    (hrsp : (if rstripSlash p = [] then ['/'] else rstripSlash p) = p) :
    normalize_url (urlunparse s n p [] q []) = urlunparse s n p [] q [] := by
  have hbs := urlsplit_of_build s n p q hs hn hbm hpne hph hpq hqh hslash hsch
  have hup : urlparse (urlunparse s n p [] q []) = some ⟨s, n, p, [], q, []⟩ := by
    simp only [urlparse, hbs, hsem, Bool.false_eq_true, if_false]
  simp only [normalize_url, hup]
  rw [if_neg hshttp, hlown, hrsp]

/-- When the text after the netloc section starts at a delimiter, the
normalized path starts with `/`. -/
theorem head_slash_of_delim_rest {r0 x2 pp : Str}
    (hx2 : x2 = r0.dropWhile (fun c => !netlocDelim c))
    (hpath : pp = (x2.takeWhile (fun c => c != '#')).takeWhile (fun c => c != '?')) :
    (if rstripSlash pp = [] then ['/'] else rstripSlash pp).head? = some '/' := by
  by_cases hz : rstripSlash pp = []
  · rw [if_pos hz]
    rfl
  · rw [if_neg hz]
    have hh1 := head?_rstripSlash hz
    cases hrp : (rstripSlash pp).head? with
    | none =>
      exfalso
      cases hrs2 : rstripSlash pp with
      | nil => exact absurd hrs2 hz
      | cons a t =>
        rw [hrs2] at hrp
        simp at hrp
    | some c =>
      have hpH : pp.head? = some c := by rw [hh1, hrp]
      rw [hpath] at hpH
      obtain ⟨hy, hq⟩ := head?_takeWhile hpH
      obtain ⟨hx2h, hhash⟩ := head?_takeWhile hy
      obtain ⟨t2, hx2c⟩ : ∃ t2, x2 = c :: t2 := by
        cases hx2e : x2 with
        | nil =>
          rw [hx2e] at hx2h
          simp at hx2h
        | cons a t =>
          rw [hx2e] at hx2h
          have h2 : a = c := by simpa using hx2h
          exact ⟨t, by rw [h2]⟩
      have hdel : netlocDelim c = true := by
        have hd := dropWhile_head_false (fun c => !netlocDelim c) (hx2.symm.trans hx2c)
        simpa using hd
      have hc2 : c = '/' := by
        simp [netlocDelim] at hdel
        simp at hq hhash
        rcases hdel with (h | h) | h
        · exact h
        · exact absurd h hq
        · exact absurd h hhash
      rw [hc2]

/-- The components `normalize_url` produces from any successful parse with a
semicolon-free path rebuild to a fixed point of `normalize_url`. -/
theorem normalize_components_fixed
    (u x1 x2 ss nn pp qq S N P : Str)
    (hS : S = if ss = str "http" then str "https" else ss)
    (hN : N = lower nn)
    (hP : P = if rstripSlash pp = [] then ['/'] else rstripSlash pp)
    (hss : splitScheme u = (ss, x1))
    (hsn : splitNetloc x1 = (nn, x2))
    (hbm : bracketMismatch nn = false)
    (hpath : pp = (x2.takeWhile (fun c => c != '#')).takeWhile (fun c => c != '?'))
    (hquery : qq = ((x2.takeWhile (fun c => c != '#')).dropWhile (fun c => c != '?')).drop 1)
    (hpsemi : pp.contains ';' = false) :
    normalize_url (urlunparse S N P [] qq []) = urlunparse S N P [] qq [] := by
  have hn0 : ∀ c ∈ nn, netlocDelim c = false := by
    rcases splitNetloc_inv x1 nn x2 hsn with ⟨hne, -⟩ | ⟨r0, hx1, hnt, -⟩
    · rw [hne]
      intro c hc
      simp at hc
    · rw [hnt]
      intro c hc
      have hx := List.mem_takeWhile_imp hc
      simpa using hx
  have hph0 : ∀ c ∈ pp, (c != '#') = true := by
    intro c hc
    rw [hpath] at hc
    have hc2 := mem_of_mem_takeWhile hc
    have hx := List.mem_takeWhile_imp hc2
    exact hx
  have hpq0 : ∀ c ∈ pp, (c != '?') = true := by
    intro c hc
    rw [hpath] at hc
    have hx := List.mem_takeWhile_imp hc
    exact hx
  have hqh0 : ∀ c ∈ qq, (c != '#') = true := by
    intro c hc
    rw [hquery] at hc
    have hc2 := mem_of_mem_drop1 hc
    have hc3 := mem_of_mem_dropWhile hc2
    have hx := List.mem_takeWhile_imp hc3
    exact hx
  have hPmem : ∀ c ∈ P, c = '/' ∨ c ∈ pp := by
    intro c hc
    rw [hP] at hc
    by_cases hz : rstripSlash pp = []
    · rw [if_pos hz] at hc
      left
      simpa using hc
    · rw [if_neg hz] at hc
      right
      exact mem_rstripSlash hc
  have hPne : P ≠ [] := by
    rw [hP]
    by_cases hz : rstripSlash pp = []
    · rw [if_pos hz]
      simp
    · rw [if_neg hz]
      exact hz
  have hphP : ∀ c ∈ P, (c != '#') = true := by
    intro c hc
    rcases hPmem c hc with rfl | hc2
    · decide
    · exact hph0 c hc2
  have hpqP : ∀ c ∈ P, (c != '?') = true := by
    intro c hc
    rcases hPmem c hc with rfl | hc2
    · decide
    · exact hpq0 c hc2
  have hsemP : P.contains ';' = false := by
    rw [contains_eq_decide_mem, decide_eq_false_iff_not]
    intro hc
    rcases hPmem ';' hc with h1 | h1
    · exact absurd h1 (by decide)
    · rw [contains_eq_decide_mem] at hpsemi
      exact absurd h1 (of_decide_eq_false hpsemi)
  have hShttp : S ≠ str "http" := by
    rw [hS]
    by_cases hx : ss = str "http"
    · rw [if_pos hx]
      decide
    · rw [if_neg hx]
      exact hx
  have hlowN : lower N = N := by
    rw [hN]
    exact lower_idem nn
  have hbmN : bracketMismatch N = false := by
    rw [hN, bracketMismatch_lower]
    exact hbm
  have hnN : ∀ c ∈ N, netlocDelim c = false := by
    rw [hN]
    exact netlocDelim_lower hn0
  have hrsP : (if rstripSlash P = [] then ['/'] else rstripSlash P) = P := by
    rcases rstripSlash_last pp with h0 | ⟨t, c, hc, htc⟩
    · have hP2 : P = ['/'] := by rw [hP, if_pos h0]
      rw [hP2]
      decide
    · have hz : rstripSlash pp ≠ [] := by
        rw [hc]
        simp
      have hP2 : P = t ++ [c] := by rw [hP, if_neg hz, hc]
      rw [hP2, rstripSlash_eq_self htc, if_neg (by simp)]
  have hslashP : N ≠ [] → P.head? = some '/' := by
    intro hne
    have hn0ne : nn ≠ [] := by
      intro hco
      rw [hN, hco] at hne
      exact hne rfl
    rcases splitNetloc_inv x1 nn x2 hsn with ⟨hne2, -⟩ | ⟨r0, hx1, hnt, hx2e⟩
    · exact absurd hne2 hn0ne
    · rw [hP]
      exact head_slash_of_delim_rest hx2e hpath
  have hSok : S = [] ∨ (validSchemeName S = true ∧ (∀ c ∈ S, (c != ':') = true) ∧
      lower S = S) := by
    by_cases hx : ss = str "http"
    · right
      rw [hS, if_pos hx]
      exact ⟨by decide, by decide, by decide⟩
    · rw [hS, if_neg hx]
      rcases splitScheme_cases u with h0 | ⟨pre, rest, hu, hv, hprec, heq⟩
      · left
        have h2 := hss.symm.trans h0
        have h3 := congrArg Prod.fst h2
        simpa using h3
      · right
        have h2 := hss.symm.trans heq
        have hsse : ss = lower pre := by
          have h3 := congrArg Prod.fst h2
          simpa using h3
        refine ⟨?_, ?_, ?_⟩
        · rw [hsse]
          exact validSchemeName_lower hv
        · rw [hsse]
          intro c hc
          unfold lower at hc
          obtain ⟨a, ha, rfl⟩ := List.mem_map.mp hc
          exact ne_colon_lowerChar (hprec a ha)
        · rw [hsse]
          exact lower_idem pre
  have hschP : S = [] → splitScheme (P ++ (if qq = [] then [] else '?' :: qq)) =
      ([], P ++ (if qq = [] then [] else '?' :: qq)) := by
    intro hSE
    have hsE : ss = [] := by
      rw [hS] at hSE
      by_cases hx : ss = str "http"
      · rw [if_pos hx] at hSE
        exact absurd hSE (by decide)
      · rw [if_neg hx] at hSE
        exact hSE
    have hx1u : x1 = u := by
      rcases splitScheme_cases u with h0 | ⟨pre, rest, hu, hv, hprec, heq⟩
      · have h2 := hss.symm.trans h0
        have h3 := congrArg Prod.snd h2
        simpa using h3
      · exfalso
        have h2 := hss.symm.trans heq
        have h3 := congrArg Prod.fst h2
        simp only at h3
        rw [hsE] at h3
        have h4 : pre = [] := lower_eq_nil_iff.mp h3.symm
        rw [h4] at hv
        exact absurd hv (by simp [validSchemeName])
    by_cases hPh : P.head? = some '/'
    · obtain ⟨Pt, hPt⟩ : ∃ t, P = '/' :: t := by
        cases hcs : P with
        | nil =>
          rw [hcs] at hPh
          simp at hPh
        | cons a t =>
          rw [hcs] at hPh
          have h2 : a = '/' := by simpa using hPh
          exact ⟨t, by rw [h2]⟩
      apply splitScheme_invalid
      rw [hPt, List.cons_append, List.takeWhile_cons_of_pos (by decide)]
      exact validSchemeName_false_of_bad_mem (List.mem_cons_self _ _) (by decide)
    · have hnnE : nn = [] := by
        by_cases hco : nn = []
        · exact hco
        · exfalso
          apply hPh
          apply hslashP
          rw [hN]
          intro h2
          exact hco (lower_eq_nil_iff.mp h2)
      have hx2u : x2 = u := by
        rcases splitNetloc_inv x1 nn x2 hsn with ⟨-, hrest⟩ | ⟨r0, hx1e, hnt, hx2e⟩
        · rw [hrest, hx1u]
        · exfalso
          apply hPh
          rw [hP]
          exact head_slash_of_delim_rest hx2e hpath
      by_cases hcp : ':' ∈ P
      · apply splitScheme_invalid
        have hz : rstripSlash pp ≠ [] := by
          intro h0
          apply hPh
          rw [hP, if_pos h0]
          rfl
        have hPrs : P = rstripSlash pp := by rw [hP, if_neg hz]
        have hcpp : ':' ∈ pp := mem_rstripSlash (hPrs ▸ hcp)
        have ht1 : (P ++ (if qq = [] then [] else '?' :: qq)).takeWhile (fun c => c != ':')
            = P.takeWhile (fun c => c != ':') :=
          takeWhile_append_left P _ ':' hcp (by decide)
        have ht2 : pp.takeWhile (fun c => c != ':') = P.takeWhile (fun c => c != ':') := by
          obtain ⟨m, hm⟩ := rstripSlash_decomp pp
          conv_lhs => rw [hm, ← hPrs]
          exact takeWhile_append_left P _ ':' hcp (by decide)
        have ht3 : (x2.takeWhile (fun c => c != '#')).takeWhile (fun c => c != ':')
            = pp.takeWhile (fun c => c != ':') := by
          conv_lhs => rw [← List.takeWhile_append_dropWhile (fun c => c != '?')
            (x2.takeWhile (fun c => c != '#')), ← hpath]
          exact takeWhile_append_left pp _ ':' hcpp (by decide)
        have ht4 : u.takeWhile (fun c => c != ':')
            = (x2.takeWhile (fun c => c != '#')).takeWhile (fun c => c != ':') := by
          conv_lhs => rw [← hx2u, ← List.takeWhile_append_dropWhile (fun c => c != '#') x2]
          refine takeWhile_append_left _ _ ':' ?_ (by decide)
          have h5 := hcpp
          rw [hpath] at h5
          exact mem_of_mem_takeWhile h5
        have hvfin : validSchemeName (u.takeWhile (fun c => c != ':')) = false := by
          apply splitScheme_self_invalid
          · rw [hsE, hx1u] at hss
            exact hss
          · have h5 := hcpp
            rw [hpath] at h5
            have h6 := mem_of_mem_takeWhile (mem_of_mem_takeWhile h5)
            rw [← hx2u]
            exact h6
        rw [ht1, ← ht2, ← ht3, ← ht4]
        exact hvfin
      · by_cases hq0 : qq = []
        · apply splitScheme_no_colon
          intro c hc
          rcases List.mem_append.mp hc with hc1 | hc1
          · have h5 : c ≠ ':' := by
              intro hco
              rw [hco] at hc1
              exact hcp hc1
            simpa using h5
          · rw [if_pos hq0] at hc1
            simp at hc1
        · apply splitScheme_invalid
          have hposP : ∀ c ∈ P, (c != ':') = true := by
            intro c hc1
            have h5 : c ≠ ':' := by
              intro hco
              rw [hco] at hc1
              exact hcp hc1
            simpa using h5
          rw [if_neg hq0, List.takeWhile_append_of_pos hposP,
            List.takeWhile_cons_of_pos (by decide)]
          exact validSchemeName_false_of_bad_mem
            (List.mem_append.mpr (Or.inr (List.mem_cons_self _ _))) (by decide)
  exact normalize_url_of_build S N P qq hSok hnN hbmN hPne hphP hpqP hqh0 hslashP
    hschP hsemP hShttp hlowN hrsP

/-- Any URL whose parse has a semicolon-free path normalizes to a fixed point
of `normalize_url`. -/
theorem normalize_url_idem_core (u : Str) (hsf : pathSemiFree u = true) :
    normalize_url (normalize_url u) = normalize_url u := by
  cases hp : urlparse u with
  | none =>
    have h1 : normalize_url u = u := by simp only [normalize_url, hp]
    rw [h1, h1]
  | some pr =>
    obtain ⟨hsplit, hparams, hpsemi⟩ := urlparse_semifree u pr hp hsf
    obtain ⟨x1, x2, hss, hsn, hbm0, hpath, hquery, hfrag⟩ :=
      urlsplit_inv u ⟨pr.scheme, pr.netloc, pr.path, pr.query, pr.fragment⟩ hsplit
    have hss2 : splitScheme u = (pr.scheme, x1) := hss
    have hsn2 : splitNetloc x1 = (pr.netloc, x2) := hsn
    have hbm2 : bracketMismatch pr.netloc = false := hbm0
    have hpath2 : pr.path =
        (x2.takeWhile (fun c => c != '#')).takeWhile (fun c => c != '?') := hpath
    have hquery2 : pr.query =
        ((x2.takeWhile (fun c => c != '#')).dropWhile (fun c => c != '?')).drop 1 := hquery
    have hnu : normalize_url u =
        urlunparse (if pr.scheme = str "http" then str "https" else pr.scheme)
          (lower pr.netloc)
          (if rstripSlash pr.path = [] then ['/'] else rstripSlash pr.path)
          [] pr.query [] := by
      simp only [normalize_url, hp, hparams]
    rw [hnu]
    exact normalize_components_fixed u x1 x2 pr.scheme pr.netloc pr.path pr.query
      (if pr.scheme = str "http" then str "https" else pr.scheme)
      (lower pr.netloc)
      (if rstripSlash pr.path = [] then ['/'] else rstripSlash pr.path)
      rfl rfl rfl hss2 hsn2 hbm2 hpath2 hquery2 hpsemi

/-- C10 (amended): restricted to URLs whose parsed path carries no `;`
path-parameters, `normalize_url` is idempotent, and consequently
`generate_url_hash (normalize_url u) = generate_url_hash u`, so re-normalizing
an already-enriched URL does not change its dedup fingerprint.  Without that
restriction idempotence fails (see the counterexample theorem). -/
theorem normalize_url_idem_semifree (u : Str) (hsf : pathSemiFree u = true) :
    normalize_url (normalize_url u) = normalize_url u ∧
    generate_url_hash (normalize_url u) = generate_url_hash u := by
  have h1 := normalize_url_idem_core u hsf
  refine ⟨h1, ?_⟩
  unfold generate_url_hash
  rw [h1]

/-- Concrete instance of the amended C10 theorem. -/
theorem normalize_url_idem_semifree_witness :
    pathSemiFree (str "http://Example.com/news/a/") = true ∧
    (normalize_url (normalize_url (str "http://Example.com/news/a/")) =
        normalize_url (str "http://Example.com/news/a/") ∧
      generate_url_hash (normalize_url (str "http://Example.com/news/a/")) =
        generate_url_hash (str "http://Example.com/news/a/")) :=
  ⟨by decide, normalize_url_idem_semifree (str "http://Example.com/news/a/") (by decide)⟩

end ArticlePipeline
